import Mathlib

/-!
The dwl interaction core: view registry, focus, bindings, interactive grabs.

A shallow embedding of `dwl.c`.  The program's global variables (`views`,
`cursor_mode`, `grabbed_view`, `grab_x`, ...) become the fields of one `State`
record that every handler takes and returns.  The wlroots/wayland substrate is
not part of the program: the part of its state that the program reads back
(seat focus, the activated flag of a toplevel, the cursor position) is kept in
`State` as well, each call into it is appended to `State.out`, and its queries
(`wlr_xdg_surface_surface_at`, `wlr_xdg_surface_get_geometry`, the clamping of
`wlr_cursor_warp_closest`) are the fields of a `Substrate` record.

Handles.  `createnotify` allocates one `dwl_view` per toplevel `xdg_surface`
and `destroynotify` frees it on that surface's destroy event, so a view, its
`xdg_surface` and the `wlr_surface` of that `xdg_surface` are named by one
handle.  Other surfaces (popups, subsurfaces) are further handles.

Coordinates.  Cursor and grab coordinates are `double` in the source and view
positions are `int`; the model covers integer-valued coordinates (`Int`), on
which the source's arithmetic is exact and the conversion to `int` is the
identity.
-/

namespace Dwl

/-! ## Data model -/

/-- Handle of a `struct dwl_view` (and of its `xdg_surface`). -/
abbrev View := Nat

/-- Handle of a `struct wlr_surface`. -/
abbrev Surface := Nat

/-- The expression `view->xdg_surface->surface`. -/
def surfaceOf (v : View) : Surface := v

/-- Values of the anonymous cursor enum `{ CurNormal, CurMove, CurResize }`. -/
def CurNormal : Nat := 0

/-- Second value of the cursor enum. -/
def CurMove : Nat := 1

/-- Third value of the cursor enum. -/
def CurResize : Nat := 2

/-- Bit `WLR_MODIFIER_CAPS` of `enum wlr_keyboard_modifier`. -/
def WLR_MODIFIER_CAPS : Nat := 2

/-- Bits of `enum wlr_edges`. -/
def WLR_EDGE_TOP : Nat := 1

/-- Bottom edge bit. -/
def WLR_EDGE_BOTTOM : Nat := 2

/-- Left edge bit. -/
def WLR_EDGE_LEFT : Nat := 4

/-- Right edge bit. -/
def WLR_EDGE_RIGHT : Nat := 8

/-- Values of `enum wlr_button_state` and `enum wlr_key_state`. -/
inductive PressState
  | released
  | pressed
  deriving DecidableEq, Repr

/-- The union `Arg`.  No action of `dwl.c` reads the `f` member, whose payload
is kept as an uninterpreted bit pattern; `v` is only read by `spawn`, as an
argument vector. -/
inductive Arg
  | i (n : Int)
  | ui (n : Nat)
  | f (bits : Nat)
  | v (argv : List String)
  deriving DecidableEq, Repr

/-- Calls into the substrate, in the order the program makes them. -/
inductive Effect
  | pointer_notify_button (time button : Nat) (state : PressState)
  | xdg_toplevel_set_activated (xdg : View) (activated : Bool)
  | keyboard_notify_enter (surface : Surface)
  | seat_set_keyboard (device : Nat)
  | keyboard_notify_key (time keycode : Nat) (state : PressState)
  | pointer_notify_enter (surface : Surface) (sx sy : Int)
  | pointer_notify_motion (time : Nat) (sx sy : Int)
  | pointer_clear_focus
  | set_cursor_image (name : String)
  | xdg_toplevel_set_size (xdg : View) (width height : Int)
  | cursor_warp_closest (x y : Int)
  | render_surfaces (xdg : View)
  | display_terminate
  | spawn (argv : List String)
  deriving DecidableEq, Repr

/-- A `struct wlr_box`. -/
structure Box where
  x : Int
  y : Int
  width : Int
  height : Int
  deriving DecidableEq, Repr

/-- Queries answered by the substrate. -/
structure Substrate where
  /-- Answer of `wlr_xdg_surface_surface_at(view->xdg_surface, sx, sy, &_sx, &_sy)`:
  the surface hit and the surface-local coordinates, or `none` for `NULL`. -/
  surface_at : View → Int → Int → Option (Surface × Int × Int)
  /-- Box stored by `wlr_xdg_surface_get_geometry(view->xdg_surface, &geo_box)`. -/
  get_geometry : View → Box
  /-- Where `wlr_cursor_warp_closest(cursor, NULL, x, y)` leaves the cursor. -/
  warp_closest : Int → Int → Int × Int

/-- The program's global variables, the fields of the live `dwl_view`s, and the
substrate state the program reads back. -/
structure State where
  /-- The list `views`, front first. -/
  views : List View
  /-- Field `mapped` of each view. -/
  mapped : View → Bool
  /-- Field `x` of each view. -/
  x : View → Int
  /-- Field `y` of each view. -/
  y : View → Int
  /-- Value of `seat->keyboard_state.focused_surface`. -/
  kbd_focus : Option Surface
  /-- Value of `seat->pointer_state.focused_surface`. -/
  ptr_focus : Option Surface
  /-- The activated flag of each toplevel, as last set by
  `wlr_xdg_toplevel_set_activated`. -/
  activated : View → Bool
  /-- Value of `cursor->x`. -/
  cursor_x : Int
  /-- Value of `cursor->y`. -/
  cursor_y : Int
  cursor_mode : Nat
  /-- Pointer `grabbed_view`; `none` is `NULL`. -/
  grabbed_view : Option View
  grab_x : Int
  grab_y : Int
  grab_width : Int
  grab_height : Int
  resize_edges : Nat
  /-- Calls made into the substrate so far, oldest first. -/
  out : List Effect

/-- The state after `main` has initialised the globals: empty lists, statics
zeroed. -/
def State.init : State where
  views := []
  mapped := fun _ => false
  x := fun _ => 0
  y := fun _ => 0
  kbd_focus := none
  ptr_focus := none
  activated := fun _ => false
  cursor_x := 0
  cursor_y := 0
  cursor_mode := CurNormal
  grabbed_view := none
  grab_x := 0
  grab_y := 0
  grab_width := 0
  grab_height := 0
  resize_edges := 0
  out := []

/-- Appends one substrate call to the log. -/
def State.emit (s : State) (e : Effect) : State :=
  { s with out := s.out ++ [e] }

/-! ## The list `views` -/

/-- The call `wl_list_remove(&view->link)`: unlinks the node of `view`. -/
def wl_list_remove (l : List View) (view : View) : List View :=
  l.erase view

/-- The call `wl_list_insert(&views, &view->link)`: links `view` right after
the list head, that is at the front. -/
def wl_list_insert_head (l : List View) (view : View) : List View :=
  view :: l

/-- The call `wl_list_insert(views.prev, &view->link)`: links `view` right
after the last node, that is at the back. -/
def wl_list_insert_last (l : List View) (view : View) : List View :=
  l ++ [view]

/-! ## View lifecycle -/

/-- Handler `createnotify`.  `view` is the handle of the new `xdg_surface` and
of the `dwl_view` that `calloc` returns for it (all fields zero); a surface
whose role is not toplevel is ignored. -/
def createnotify (s : State) (view : View) (toplevel : Bool) : State :=
  if !toplevel then s
  else
    { s with
      mapped := Function.update s.mapped view false
      x := Function.update s.x view 0
      y := Function.update s.y view 0
      views := wl_list_insert_head s.views view }

/-- Handler `destroynotify`: unlink and free. -/
def destroynotify (s : State) (view : View) : State :=
  { s with views := wl_list_remove s.views view }

/-- The function `focus`.  `view = none` is a `NULL` view, `surface = none` a
`NULL` surface.  `wlr_xdg_toplevel_set_activated` sets the activated flag of
the toplevel it is given and `wlr_seat_keyboard_notify_enter` makes its surface
the seat's keyboard-focused surface. -/
def focus (s : State) (view : Option View) (surface : Option Surface) : State :=
  match view with
  | none => s
  | some view =>
    let prev_surface := s.kbd_focus
    if prev_surface = surface then s
    else
      let s1 : State :=
        match prev_surface with
        | some previous =>
          { s with activated := Function.update s.activated previous false }.emit
            (Effect.xdg_toplevel_set_activated previous false)
        | none => s
      let s2 : State := { s1 with views := wl_list_remove s1.views view }
      let s3 : State := { s2 with views := wl_list_insert_head s2.views view }
      let s4 : State :=
        { s3 with activated := Function.update s3.activated view true }.emit
          (Effect.xdg_toplevel_set_activated view true)
      { s4 with kbd_focus := some (surfaceOf view) }.emit
        (Effect.keyboard_notify_enter (surfaceOf view))

/-- The action `focusnext`. -/
def focusnext (s : State) : State :=
  if s.views.length < 2 then s
  else
    match s.views with
    | current_view :: next_view :: _ =>
      let s1 := focus s (some next_view) (some (surfaceOf next_view))
      let s2 : State := { s1 with views := wl_list_remove s1.views current_view }
      { s2 with views := wl_list_insert_last s2.views current_view }
    | _ => s

/-- Handler `maprequest`. -/
def maprequest (s : State) (view : View) : State :=
  focus { s with mapped := Function.update s.mapped view true }
    (some view) (some (surfaceOf view))

/-- Handler `unmapnotify`. -/
def unmapnotify (s : State) (view : View) : State :=
  { s with mapped := Function.update s.mapped view false }

/-! ## Hit test -/

/-- The function `xytosurface`: `some (surface, sx, sy)` when it returns true
and stores through its out-parameters, `none` when it returns false. -/
def xytosurface (env : Substrate) (s : State) (view : View) (lx ly : Int) :
    Option (Surface × Int × Int) :=
  let view_sx := lx - s.x view
  let view_sy := ly - s.y view
  env.surface_at view view_sx view_sy

/-- The function `xytoview`: the first view of the list on which `xytosurface`
succeeds, with what it stored; `none` when the loop ends and `NULL` is
returned (the out-parameters are then left as they were). -/
def xytoview (env : Substrate) (s : State) (lx ly : Int) :
    Option (View × Surface × Int × Int) :=
  s.views.findSome? fun view =>
    (xytosurface env s view lx ly).map fun r => (view, r)

/-! ## Interactive move and resize -/

/-- The function `moveresize`. -/
def moveresize (env : Substrate) (s : State) (view : View) (mode : Nat)
    (edges : Nat) : State :=
  let focused_surface := s.ptr_focus
  if some (surfaceOf view) ≠ focused_surface then s
  else
    let geo_box := env.get_geometry view
    { s with
      grabbed_view := some view
      cursor_mode := mode
      grab_x := if mode = CurMove then s.cursor_x - s.x view
                else s.cursor_x + geo_box.x
      grab_y := if mode = CurMove then s.cursor_y - s.y view
                else s.cursor_y + geo_box.y
      grab_width := geo_box.width
      grab_height := geo_box.height
      resize_edges := edges }

/-- The action `movemouse`. -/
def movemouse (env : Substrate) (s : State) : State :=
  match xytoview env s s.cursor_x s.cursor_y with
  | none => s
  | some (view, _) => moveresize env s view CurMove 0

/-- The action `resizemouse`. -/
def resizemouse (env : Substrate) (s : State) : State :=
  match xytoview env s s.cursor_x s.cursor_y with
  | none => s
  | some (view, _) =>
    let geo_box := env.get_geometry view
    let tx := s.x view + geo_box.x + geo_box.width
    let ty := s.y view + geo_box.y + geo_box.height
    let c := env.warp_closest tx ty
    let s1 : State :=
      { s with cursor_x := c.1, cursor_y := c.2 }.emit (Effect.cursor_warp_closest tx ty)
    moveresize env s1 view CurResize (WLR_EDGE_BOTTOM ||| WLR_EDGE_RIGHT)

/-- The function `handlemove`.  It dereferences `grabbed_view`; with a `NULL`
pointer the source has no defined behaviour and the model leaves the state as
it is. -/
def handlemove (s : State) : State :=
  match s.grabbed_view with
  | none => s
  | some view =>
    let s1 : State := { s with x := Function.update s.x view (s.cursor_x - s.grab_x) }
    { s1 with y := Function.update s1.y view (s1.cursor_y - s1.grab_y) }

/-- The function `handleresize`.  The logged size is the pair of `int` values
`width`, `height` passed to `wlr_xdg_toplevel_set_size`. -/
def handleresize (s : State) : State :=
  match s.grabbed_view with
  | none => s
  | some view =>
    let dx := s.cursor_x - s.grab_x
    let dy := s.cursor_y - s.grab_y
    let x0 := s.x view
    let y0 := s.y view
    let width0 := s.grab_width
    let height0 := s.grab_height
    let yh : Int × Int :=
      if s.resize_edges &&& WLR_EDGE_TOP ≠ 0 then
        let y := s.grab_y + dy
        let height := height0 - dy
        if height < 1 then (y + height, height) else (y, height)
      else if s.resize_edges &&& WLR_EDGE_BOTTOM ≠ 0 then (y0, height0 + dy)
      else (y0, height0)
    let xw : Int × Int :=
      if s.resize_edges &&& WLR_EDGE_LEFT ≠ 0 then
        let x := s.grab_x + dx
        let width := width0 - dx
        if width < 1 then (x + width, width) else (x, width)
      else if s.resize_edges &&& WLR_EDGE_RIGHT ≠ 0 then (x0, width0 + dx)
      else (x0, width0)
    let s1 : State := { s with x := Function.update s.x view xw.1 }
    let s2 : State := { s1 with y := Function.update s1.y view yh.1 }
    s2.emit (Effect.xdg_toplevel_set_size view xw.2 yh.2)

/-- The function `motionnotify`.  `wlr_seat_pointer_notify_enter` makes the
surface it is given the seat's pointer-focused surface and
`wlr_seat_pointer_clear_focus` leaves the seat without one. -/
def motionnotify (env : Substrate) (s : State) (time : Nat) : State :=
  if s.cursor_mode = CurMove then handlemove s
  else if s.cursor_mode = CurResize then handleresize s
  else
    match xytoview env s s.cursor_x s.cursor_y with
    | none =>
      let s1 := s.emit (Effect.set_cursor_image "left_ptr")
      { s1 with ptr_focus := none }.emit Effect.pointer_clear_focus
    | some (_, surface, sx, sy) =>
      let focus_changed := decide (s.ptr_focus ≠ some surface)
      let s1 : State :=
        { s with ptr_focus := some surface }.emit (Effect.pointer_notify_enter surface sx sy)
      if !focus_changed then s1.emit (Effect.pointer_notify_motion time sx sy)
      else s1

/-- Handler `motionrelative`: `wlr_cursor_move` moves the cursor by the delta,
constrained to the layout, then `motionnotify` runs. -/
def motionrelative (env : Substrate) (s : State) (delta_x delta_y : Int)
    (time : Nat) : State :=
  let c := env.warp_closest (s.cursor_x + delta_x) (s.cursor_y + delta_y)
  motionnotify env { s with cursor_x := c.1, cursor_y := c.2 } time

/-- Handler `motionabsolute`: `wlr_cursor_warp_absolute` puts the cursor at the
layout position `(lx, ly)` that the event's device coordinates stand for, then
`motionnotify` runs. -/
def motionabsolute (env : Substrate) (s : State) (lx ly : Int) (time : Nat) : State :=
  motionnotify env { s with cursor_x := lx, cursor_y := ly } time

/-! ## Bindings -/

/-- The action `quit`. -/
def quit (s : State) : State :=
  s.emit Effect.display_terminate

/-- The action `spawn`: the child process executes `arg->v`. -/
def spawn (s : State) (arg : Arg) : State :=
  match arg with
  | Arg.v argv => s.emit (Effect.spawn argv)
  | _ => s.emit (Effect.spawn [])

/-- The functions of `dwl.c` of type `void (*)(const Arg *)`, the values a
binding's `func` member can take. -/
inductive Func
  | focusnext
  | movemouse
  | quit
  | resizemouse
  | spawn
  deriving DecidableEq, Repr

/-- The call `func(&arg)`. -/
def Func.call (fn : Func) (env : Substrate) (arg : Arg) (s : State) : State :=
  match fn with
  | Func.focusnext => Dwl.focusnext s
  | Func.movemouse => Dwl.movemouse env s
  | Func.quit => Dwl.quit s
  | Func.resizemouse => Dwl.resizemouse env s
  | Func.spawn => Dwl.spawn s arg

/-- The struct `Key`; `func = none` is a `NULL` function pointer. -/
structure Key where
  mod : Nat
  keysym : Nat
  func : Option Func
  arg : Arg
  deriving DecidableEq, Repr

/-- The struct `Button`. -/
structure Button where
  mod : Nat
  button : Nat
  func : Option Func
  arg : Arg
  deriving DecidableEq, Repr

/-- The macro `CLEANMASK` on a 32-bit unsigned mask: `mask & ~WLR_MODIFIER_CAPS`. -/
def CLEANMASK (mask : Nat) : Nat :=
  mask &&& (2 ^ 32 - 1 - WLR_MODIFIER_CAPS)

/-- One iteration of the loop of `keybinding`, on the pair of the local
`handled` and the state. -/
def keybinding_step (env : Substrate) (mods sym : Nat) (acc : Bool × State)
    (k : Key) : Bool × State :=
  if sym = k.keysym ∧ CLEANMASK mods = CLEANMASK k.mod then
    match k.func with
    | some fn => (true, fn.call env k.arg acc.2)
    | none => acc
  else acc

/-- The function `keybinding` over the table `keys` of `config.h`: the value
returned and the state the invoked actions leave. -/
def keybinding (env : Substrate) (keys : List Key) (mods sym : Nat) (s : State) :
    Bool × State :=
  keys.foldl (keybinding_step env mods sym) (false, s)

/-- Handler `keypress`.  `syms` are the keysyms that `xkb_state_key_get_syms`
gives for the event's keycode and `mods` is what `wlr_keyboard_get_modifiers`
returns. -/
def keypress (env : Substrate) (keys : List Key) (device time keycode : Nat)
    (state : PressState) (syms : List Nat) (mods : Nat) (s : State) : State :=
  let r : Bool × State :=
    if state = PressState.pressed then
      syms.foldl
        (fun acc sym =>
          let r := keybinding env keys mods sym acc.2
          (r.1 || acc.1, r.2))
        (false, s)
    else (false, s)
  if !r.1 then
    (r.2.emit (Effect.seat_set_keyboard device)).emit
      (Effect.keyboard_notify_key time keycode state)
  else r.2

/-- One iteration of the loop over `buttons` in `buttonpress`. -/
def button_step (env : Substrate) (mods button : Nat) (s : State) (b : Button) :
    State :=
  if button = b.button ∧ CLEANMASK mods = CLEANMASK b.mod then
    match b.func with
    | some fn => fn.call env b.arg s
    | none => s
  else s

/-- Handler `buttonpress` over the table `buttons` of `config.h`.  `mods` is
what `wlr_keyboard_get_modifiers` returns for the seat's keyboard. -/
def buttonpress (env : Substrate) (buttons : List Button) (time button : Nat)
    (state : PressState) (mods : Nat) (s : State) : State :=
  let s1 := s.emit (Effect.pointer_notify_button time button state)
  let hit := xytoview env s1 s1.cursor_x s1.cursor_y
  if state = PressState.released then { s1 with cursor_mode := CurNormal }
  else
    let s2 := focus s1 (hit.map fun r => r.1) (hit.map fun r => r.2.1)
    buttons.foldl (button_step env mods button) s2

/-! ## Frame -/

/-- The loop over `views` in `renderoutput`, which runs when
`wlr_output_attach_render` succeeds: one `wlr_xdg_surface_for_each_surface`
call per mapped view, last view first. -/
def renderoutput (s : State) (attach_ok : Bool) : State :=
  if !attach_ok then s
  else
    s.views.reverse.foldl
      (fun acc view => if !acc.mapped view then acc else acc.emit (Effect.render_surfaces view))
      s

/-! ## Events -/

/-- The static tables of `config.h`. -/
structure Config where
  keys : List Key
  buttons : List Button

/-- An event delivered by the substrate, with the answers the substrate gives
to the handler's queries while it runs. -/
inductive Event
  | create (view : View) (toplevel : Bool)
  | map (view : View)
  | unmap (view : View)
  | destroy (view : View)
  | button (env : Substrate) (time button : Nat) (state : PressState) (mods : Nat)
  | key (env : Substrate) (device time keycode : Nat) (state : PressState)
      (syms : List Nat) (mods : Nat)
  | motion_relative (env : Substrate) (delta_x delta_y : Int) (time : Nat)
  | motion_absolute (env : Substrate) (lx ly : Int) (time : Nat)
  | frame (attach_ok : Bool)

/-- The handler the listener registered for each event runs. -/
def handle (cfg : Config) (s : State) : Event → State
  | Event.create view toplevel => createnotify s view toplevel
  | Event.map view => maprequest s view
  | Event.unmap view => unmapnotify s view
  | Event.destroy view => destroynotify s view
  | Event.button env time button state mods =>
    buttonpress env cfg.buttons time button state mods s
  | Event.key env device time keycode state syms mods =>
    keypress env cfg.keys device time keycode state syms mods s
  | Event.motion_relative env delta_x delta_y time =>
    motionrelative env s delta_x delta_y time
  | Event.motion_absolute env lx ly time => motionabsolute env s lx ly time
  | Event.frame attach_ok => renderoutput s attach_ok

/-- What the substrate guarantees of an event: a new surface is not the
surface of a live view (and `calloc` returns memory no live view occupies);
map, unmap and destroy are signalled on a live view's surface. -/
def Event.ok (s : State) : Event → Prop
  | Event.create view _ => view ∉ s.views
  | Event.map view => view ∈ s.views
  | Event.unmap view => view ∈ s.views
  | Event.destroy view => view ∈ s.views
  | _ => True

/-- States the program can be in: the initial state and what the handlers make
of a reachable state on a well-formed event. -/
inductive Reachable (cfg : Config) : State → Prop
  | init : Reachable cfg State.init
  | step {s : State} (e : Event) : Reachable cfg s → e.ok s → Reachable cfg (handle cfg s e)

/-! ## Registry operation sequences -/

/-- The three operations that change the list `views`. -/
inductive RegOp
  | create (view : View)
  | focus (view : View) (surface : Option Surface)
  | destroy (view : View)
  deriving DecidableEq, Repr

/-- The view an operation inserts, moves to the front or removes. -/
def RegOp.moved : RegOp → View
  | RegOp.create view => view
  | RegOp.focus view _ => view
  | RegOp.destroy view => view

/-- The source function behind each operation. -/
def RegOp.apply (s : State) : RegOp → State
  | RegOp.create view => createnotify s view true
  | RegOp.focus view surface => Dwl.focus s (some view) surface
  | RegOp.destroy view => destroynotify s view

/-- A creation is for a view that is not live. -/
def RegOp.ok (s : State) : RegOp → Prop
  | RegOp.create view => view ∉ s.views
  | _ => True

instance (s : State) (op : RegOp) : Decidable (op.ok s) := by
  cases op <;> unfold RegOp.ok <;> infer_instance

/-- Runs a sequence of operations, first one first. -/
def RegOp.run (s : State) (ops : List RegOp) : State :=
  ops.foldl RegOp.apply s

/-- Every operation of the sequence is well-formed in the state it runs in. -/
def RegOp.okSeq (s : State) : List RegOp → Prop
  | [] => True
  | op :: rest => op.ok s ∧ RegOp.okSeq (op.apply s) rest

/-- View `a` stands before view `b` in the list. -/
def Before (l : List View) (a b : View) : Prop :=
  [a, b].Sublist l


/-! ## State invariants and sample states -/

/-- Only the toplevel whose surface holds keyboard focus may be activated. -/
def ActivatedOnlyFocused (s : State) : Prop :=
  ∀ w : View, s.activated w = true → s.kbd_focus = some (surfaceOf w)

/-- Registry `[1, 2, 3]` with view 1 focused and activated. -/
def sampleABC : State :=
  { State.init with
    views := [1, 2, 3]
    mapped := fun _ => true
    kbd_focus := some (surfaceOf 1)
    activated := fun w => decide (w = 1) }


/-- The claimed focus invariant: a registry view whose surface holds keyboard
focus is the first element of the registry. -/
def FocusedIsFront (s : State) : Prop :=
  ∀ v : View, v ∈ s.views → s.kbd_focus = some (surfaceOf v) → s.views.head? = some v

/-- Every view that stands before the keyboard-focused view is unmapped. -/
def UnmappedBeforeFocused (s : State) : Prop :=
  ∀ u v : View, Before s.views u v → s.kbd_focus = some (surfaceOf v) → s.mapped u = false

/-- The standing invariant of the registry and focus state. -/
def Inv (s : State) : Prop :=
  s.views.Nodup ∧ ActivatedOnlyFocused s ∧ UnmappedBeforeFocused s

/-- The part of the state the invariant reads is the same in both states. -/
def SameCore (s t : State) : Prop :=
  t.views = s.views ∧ t.mapped = s.mapped ∧ t.kbd_focus = s.kbd_focus ∧
    t.activated = s.activated

/-- A configuration with empty binding tables. -/
def emptyConfig : Config := ⟨[], []⟩

/-- View 1 is created and mapped, then view 2 is created. -/
def createMapCreate : List Event :=
  [Event.create 1 true, Event.map 1, Event.create 2 true]


/-! ## Vocabulary for the bindings -/

/-- The test of the loop of `keybinding` on one entry. -/
def Key.fires (mods sym : Nat) (k : Key) : Bool :=
  decide (sym = k.keysym) && decide (CLEANMASK mods = CLEANMASK k.mod) && k.func.isSome

/-- The call made for an entry that passed the test. -/
def Key.invoke (env : Substrate) (s : State) (k : Key) : State :=
  match k.func with
  | some fn => fn.call env k.arg s
  | none => s

/-- The test of the loop of `buttonpress` on one entry. -/
def Button.fires (mods button : Nat) (b : Button) : Bool :=
  decide (button = b.button) && decide (CLEANMASK mods = CLEANMASK b.mod) && b.func.isSome

/-- The call made for an entry that passed the test. -/
def Button.invoke (env : Substrate) (s : State) (b : Button) : State :=
  match b.func with
  | some fn => fn.call env b.arg s
  | none => s

/-- An entry with an action whose keysym is the given one and whose modifiers
are the event's modifiers without the Caps-Lock bit. -/
def Key.bound (mods sym : Nat) (k : Key) : Bool :=
  decide (k.keysym = sym) && decide (k.mod = CLEANMASK mods) && k.func.isSome

/-- Two entries on the same chord (Alt + keysym 112) with different commands. -/
def stackedKeys : List Key :=
  [⟨8, 112, some Func.spawn, Arg.v ["menu"]⟩, ⟨8, 112, some Func.spawn, Arg.v ["term"]⟩]

/-- A substrate that reports no surface anywhere. -/
def emptySubstrate : Substrate where
  surface_at := fun _ _ _ => none
  get_geometry := fun _ => ⟨0, 0, 0, 0⟩
  warp_closest := fun x y => (x, y)


/-! ## Vocabulary for the log of substrate calls -/

/-- The substrate calls that `focus` and the actions of the binding tables
make: activation changes, keyboard enter, cursor warp, terminate, spawn. -/
def Effect.fromAction : Effect → Bool
  | Effect.xdg_toplevel_set_activated _ _ => true
  | Effect.keyboard_notify_enter _ => true
  | Effect.cursor_warp_closest _ _ => true
  | Effect.display_terminate => true
  | Effect.spawn _ => true
  | _ => false

/-- State `t` has the log of `s` followed by calls that all satisfy `P`. -/
def Appends (P : Effect → Prop) (s t : State) : Prop :=
  ∃ extra : List Effect, t.out = s.out ++ extra ∧ ∀ e ∈ extra, P e

/-- The loop of `keypress` over the keysyms, without the local `handled`. -/
def runBindings (env : Substrate) (keys : List Key) (mods : Nat) (syms : List Nat)
    (s : State) : State :=
  syms.foldl (fun t sym => (keybinding env keys mods sym t).2) s

/-- One entry: Alt + keysym 112 spawns a menu. -/
def menuKey : List Key :=
  [⟨8, 112, some Func.spawn, Arg.v ["menu"]⟩]


/-- A substrate that reports a hit on view 3 (its own surface) everywhere and on
no other view. -/
def hitThree : Substrate where
  surface_at := fun v sx sy => if v = 3 then some (surfaceOf 3, sx, sy) else none
  get_geometry := fun _ => ⟨0, 0, 0, 0⟩
  warp_closest := fun x y => (x, y)

/-- One button entry: Alt + button 272 (`BTN_LEFT`) terminates the display. -/
def quitButton : List Button :=
  [⟨8, 272, some Func.quit, Arg.i 0⟩]


/-! ## Vocabulary for grabs -/

/-- The event is a pointer motion. -/
def Event.isMotion : Event → Bool
  | Event.motion_relative _ _ _ _ => true
  | Event.motion_absolute _ _ _ _ => true
  | _ => false

/-- The grab variables are the same in both states. -/
def SameGrab (s t : State) : Prop :=
  t.cursor_mode = s.cursor_mode ∧ t.grabbed_view = s.grabbed_view ∧
    t.grab_x = s.grab_x ∧ t.grab_y = s.grab_y ∧ t.grab_width = s.grab_width ∧
    t.grab_height = s.grab_height ∧ t.resize_edges = s.resize_edges

/-- View 1 at position (100, 100) under the pointer at (110, 115), holding
pointer focus. -/
def sampleMove : State :=
  { State.init with
    views := [1]
    mapped := fun _ => true
    x := fun _ => 100
    y := fun _ => 100
    ptr_focus := some (surfaceOf 1)
    cursor_x := 110
    cursor_y := 115 }

/-! ## Sample states for resize grabs and hit tests -/

/-- A substrate on which every view has the geometry box (0, 0, 200, 100) and is
hit, on its own surface, at the view-relative points of that box; the cursor
can be warped anywhere. -/
def boxSubstrate : Substrate where
  surface_at := fun v sx sy =>
    if 0 ≤ sx ∧ sx < 200 ∧ 0 ≤ sy ∧ sy < 100 then some (surfaceOf v, sx, sy) else none
  get_geometry := fun _ => ⟨0, 0, 200, 100⟩
  warp_closest := fun x y => (x, y)

/-- The same substrate with the geometry box at offset (10, 10) inside the
surface, as a client that draws a shadow around its window reports it. -/
def offsetSubstrate : Substrate where
  surface_at := fun v sx sy =>
    if 0 ≤ sx ∧ sx < 220 ∧ 0 ≤ sy ∧ sy < 120 then some (surfaceOf v, sx, sy) else none
  get_geometry := fun _ => ⟨10, 10, 200, 100⟩
  warp_closest := fun x y => (x, y)

/-- View 1 at position (50, 50), holding pointer focus, with the pointer at
(60, 55), in the top-left quarter of the view. -/
def sampleResize : State :=
  { State.init with
    views := [1]
    mapped := fun _ => true
    x := fun _ => 50
    y := fun _ => 50
    ptr_focus := some (surfaceOf 1)
    cursor_x := 60
    cursor_y := 55 }

/-- The same state with no pointer-focused surface. -/
def sampleUnfocused : State :=
  { sampleResize with ptr_focus := none }

/-- The state after view 2 is created and mapped and view 1 is created:
registry `[1, 2]`, both views at position (0, 0), view 1 unmapped, view 2 mapped
and focused. -/
def sampleUnmappedFront : State :=
  [Event.create 2 true, Event.map 2, Event.create 1 true].foldl (handle emptyConfig)
    State.init

/-! ## Event sequences -/

/-- Every event of the sequence is well-formed in the state it is handled in. -/
def Event.okAll (cfg : Config) (s : State) : List Event → Prop
  | [] => True
  | e :: rest => e.ok s ∧ Event.okAll cfg (handle cfg s e) rest

/-- A configuration whose only binding is Alt + button 272 (`BTN_LEFT`) on
`movemouse`. -/
def moveConfig : Config :=
  ⟨[], [⟨8, 272, some Func.movemouse, Arg.i 0⟩]⟩

/-- View 1 is created and mapped, the pointer moves onto it, Alt + left button
starts a move grab, and view 1 is destroyed while the button is held. -/
def grabThenDestroy : List Event :=
  [Event.create 1 true, Event.map 1, Event.motion_absolute boxSubstrate 5 5 1,
   Event.button boxSubstrate 2 272 PressState.pressed 8, Event.destroy 1]

/-- The event comes from an input device or an output, not from the life cycle
of a surface. -/
def Event.isInput : Event → Bool
  | Event.create _ _ => false
  | Event.map _ => false
  | Event.unmap _ => false
  | Event.destroy _ => false
  | _ => true

/-- A configuration whose only binding is Alt + button 273 (`BTN_RIGHT`) on
`resizemouse`. -/
def resizeConfig : Config :=
  ⟨[], [⟨8, 273, some Func.resizemouse, Arg.i 0⟩]⟩

/-- View 1 is created and mapped, at position (0, 0), under the resting pointer
at (0, 0). -/
def createMap : List Event :=
  [Event.create 1 true, Event.map 1]

/-- View 1 is created and mapped, the pointer moves onto it at (10, 5), and
Alt + right button invokes `resizemouse`. -/
def resizeGrab (env : Substrate) : List Event :=
  createMap ++
    [Event.motion_absolute env 10 5 1, Event.button env 2 273 PressState.pressed 8]

/-! ## Vocabulary for the order of activation changes -/

/-- The activated flags after the substrate has performed one logged call:
`wlr_xdg_toplevel_set_activated` sets the flag of its toplevel, no other call
touches a flag. -/
def Effect.applyActivated (act : View → Bool) : Effect → (View → Bool)
  | Effect.xdg_toplevel_set_activated xdg activated => Function.update act xdg activated
  | _ => act

/-- The activated flags after the substrate has performed a sequence of logged
calls, first one first. -/
def replayActivated (act : View → Bool) (es : List Effect) : View → Bool :=
  es.foldl Effect.applyActivated act

/-- No two toplevels are activated. -/
def AtMostOneActivated (act : View → Bool) : Prop :=
  ∀ a b : View, act a = true → act b = true → a = b

/-- The calls that notify a client of the pointer: enter, motion and clear
focus. -/
def Effect.isPointerNotify : Effect → Bool
  | Effect.pointer_notify_enter _ _ _ => true
  | Effect.pointer_notify_motion _ _ _ => true
  | Effect.pointer_clear_focus => true
  | _ => false

/-- Views 1 and 2 at position (100, 100); view 1 is held by a move grab with
anchor (10, 15) and the pointer has been moved to (150, 160). -/
def sampleMoving : State :=
  { State.init with
    views := [1, 2]
    mapped := fun _ => true
    x := fun _ => 100
    y := fun _ => 100
    ptr_focus := some (surfaceOf 1)
    cursor_x := 150
    cursor_y := 160
    cursor_mode := CurMove
    grabbed_view := some 1
    grab_x := 10
    grab_y := 15 }

/-! ## Vocabulary for the edges of resize grabs -/

/-- The list that `focus` leaves. -/
theorem focus_views (s : State) (view : Option View) (surface : Option Surface) :
    (focus s view surface).views =
      match view with
      | none => s.views
      | some v => if s.kbd_focus = surface then s.views else v :: s.views.erase v := by
  cases view with
  | none => rfl
  | some v =>
    simp only [focus]
    split_ifs with h
    · rfl
    · cases hk : s.kbd_focus <;> simp [State.emit, wl_list_remove, wl_list_insert_head]

/-- Erasing a view and then dropping every copy of it is dropping every copy. -/
theorem filter_ne_erase (l : List View) (v : View) :
    (l.erase v).filter (fun w => decide (w ≠ v)) = l.filter (fun w => decide (w ≠ v)) := by
  induction l with
  | nil => rfl
  | cons a t ih =>
    by_cases h : a = v
    · subst h; simp
    · rw [List.erase_cons_tail (by simpa using h)]
      simpa [List.filter_cons, h] using ih

/-- The order of two views other than `v` can be read off the list without `v`. -/
theorem before_filter_iff (l : List View) (v a b : View) (ha : a ≠ v) (hb : b ≠ v) :
    Before l a b ↔ Before (l.filter (fun w => decide (w ≠ v))) a b := by
  unfold Before
  constructor
  · intro h
    have := h.filter (fun w => decide (w ≠ v))
    simpa [List.filter_cons, ha, hb] using this
  · intro h
    exact h.trans (List.filter_sublist l)

/-- Moving a view to the front keeps the list duplicate-free. -/
theorem nodup_cons_erase (l : List View) (v : View) (h : l.Nodup) :
    (v :: l.erase v).Nodup := by
  rw [List.nodup_cons]
  exact ⟨fun hm => (h.mem_erase_iff.mp hm).1 rfl, h.erase v⟩

/-- The function `focus` keeps the list duplicate-free. -/
theorem focus_nodup (s : State) (view : Option View) (surface : Option Surface)
    (h : s.views.Nodup) : (focus s view surface).views.Nodup := by
  rw [focus_views]
  cases view with
  | none => exact h
  | some v =>
    dsimp only
    split_ifs
    · exact h
    · exact nodup_cons_erase _ _ h

/-- An operation leaves the list without the moved view as it was. -/
theorem RegOp.apply_filter (s : State) (op : RegOp) :
    (op.apply s).views.filter (fun w => decide (w ≠ op.moved)) =
      s.views.filter (fun w => decide (w ≠ op.moved)) := by
  cases op with
  | create v => simp [RegOp.apply, RegOp.moved, createnotify, wl_list_insert_head]
  | focus v surface =>
    simp only [RegOp.apply, RegOp.moved, focus_views]
    split_ifs
    · rfl
    · rw [List.filter_cons]
      simpa using filter_ne_erase s.views v
  | destroy v =>
    simpa [RegOp.apply, RegOp.moved, destroynotify, wl_list_remove] using
      filter_ne_erase s.views v

/-- A well-formed operation keeps the list duplicate-free. -/
theorem RegOp.apply_nodup (s : State) (op : RegOp) (h : s.views.Nodup) (hok : op.ok s) :
    (op.apply s).views.Nodup := by
  cases op with
  | create v =>
    simp only [RegOp.apply, createnotify, wl_list_insert_head]
    exact List.nodup_cons.mpr ⟨hok, h⟩
  | focus v surface => exact focus_nodup s _ _ h
  | destroy v => exact h.erase v

/-- Well-formedness of a concatenation. -/
theorem RegOp.okSeq_append (s : State) (pre post : List RegOp) :
    RegOp.okSeq s (pre ++ post) ↔ RegOp.okSeq s pre ∧ RegOp.okSeq (RegOp.run s pre) post := by
  induction pre generalizing s with
  | nil => simp [RegOp.okSeq, RegOp.run]
  | cons op rest ih =>
    simp only [List.cons_append, RegOp.okSeq, RegOp.run, List.foldl_cons, and_assoc]
    exact and_congr_right fun _ => ih (op.apply s)

/-- A well-formed sequence keeps the list duplicate-free. -/
theorem RegOp.run_nodup (s : State) (ops : List RegOp) (h : s.views.Nodup)
    (hok : RegOp.okSeq s ops) : (RegOp.run s ops).views.Nodup := by
  induction ops generalizing s with
  | nil => exact h
  | cons op rest ih =>
    exact ih (op.apply s) (RegOp.apply_nodup s op h hok.1) hok.2

/-- C1: along every well-formed sequence of creations, focus calls and destroy
notifications that starts with an empty registry, the registry is duplicate-free
before and after each operation, and each operation keeps the relative order
(and the membership) of the views other than the one it inserts, moves or
removes. -/
theorem registry_nodup_and_order (s0 : State) (h0 : s0.views = []) (pre : List RegOp)
    (op : RegOp) (hok : RegOp.okSeq s0 (pre ++ [op])) :
    (RegOp.run s0 pre).views.Nodup ∧
    (RegOp.run s0 (pre ++ [op])).views.Nodup ∧
    ∀ a b : View, a ≠ op.moved → b ≠ op.moved →
      ((a ∈ (RegOp.run s0 pre).views ↔ a ∈ (RegOp.run s0 (pre ++ [op])).views) ∧
       (Before (RegOp.run s0 pre).views a b ↔
        Before (RegOp.run s0 (pre ++ [op])).views a b)) := by
  have hn0 : s0.views.Nodup := by rw [h0]; exact List.nodup_nil
  have hpre := ((RegOp.okSeq_append s0 pre [op]).mp hok).1
  refine ⟨RegOp.run_nodup s0 pre hn0 hpre, RegOp.run_nodup s0 _ hn0 hok, ?_⟩
  intro a b ha hb
  have hrun : RegOp.run s0 (pre ++ [op]) = op.apply (RegOp.run s0 pre) := by
    simp [RegOp.run, List.foldl_append]
  have hf := RegOp.apply_filter (RegOp.run s0 pre) op
  rw [hrun]
  constructor
  · have h1 : a ∈ (op.apply (RegOp.run s0 pre)).views.filter (fun w => decide (w ≠ op.moved)) ↔
        a ∈ (RegOp.run s0 pre).views.filter (fun w => decide (w ≠ op.moved)) := by rw [hf]
    simpa [List.mem_filter, ha] using h1.symm
  · rw [before_filter_iff _ op.moved a b ha hb,
      before_filter_iff (op.apply (RegOp.run s0 pre)).views op.moved a b ha hb, hf]

/-- C1 at the sequence create 1, create 2, create 3, focus 1, then destroy 3:
the registry goes from `[1, 3, 2]` to `[1, 2]`. -/
theorem registry_nodup_and_order_witness :
    RegOp.okSeq State.init
      ([RegOp.create 1, RegOp.create 2, RegOp.create 3, RegOp.focus 1 (some 1)] ++
        [RegOp.destroy 3]) ∧
    (RegOp.run State.init
      [RegOp.create 1, RegOp.create 2, RegOp.create 3, RegOp.focus 1 (some 1)]).views
      = [1, 3, 2] ∧
    (RegOp.run State.init
      ([RegOp.create 1, RegOp.create 2, RegOp.create 3, RegOp.focus 1 (some 1)] ++
        [RegOp.destroy 3])).views.Nodup :=
  have hok : RegOp.okSeq State.init
      ([RegOp.create 1, RegOp.create 2, RegOp.create 3, RegOp.focus 1 (some 1)] ++
        [RegOp.destroy 3]) := by
    simp [RegOp.okSeq, RegOp.ok, RegOp.apply, createnotify, wl_list_insert_head, State.init]
  ⟨hok, by decide, (registry_nodup_and_order State.init rfl _ _ hok).2.1⟩

/-! ## Focus -/

/-- What `focus` does when it does not return early. -/
theorem focus_eq (s : State) (v : View) (surface : Option Surface)
    (h : s.kbd_focus ≠ surface) :
    focus s (some v) surface =
      { s with
        views := v :: s.views.erase v
        activated :=
          Function.update
            (match s.kbd_focus with
             | some p => Function.update s.activated p false
             | none => s.activated) v true
        kbd_focus := some (surfaceOf v)
        out := s.out ++
          ((match s.kbd_focus with
            | some p => [Effect.xdg_toplevel_set_activated p false]
            | none => []) ++
           [Effect.xdg_toplevel_set_activated v true,
            Effect.keyboard_notify_enter (surfaceOf v)]) } := by
  simp only [focus, if_neg h]
  cases hk : s.kbd_focus <;>
    simp [State.emit, wl_list_remove, wl_list_insert_head, List.append_assoc]

/-- C2: in a state with a duplicate-free registry in which only the
keyboard-focused view may be activated, focusing a registry view `v` that does
not hold keyboard focus puts `v` at the front, keeps the other views in their
previous relative order, leaves `v` the only activated view (the previously
focused view is deactivated) and gives `v` keyboard focus. -/
theorem focus_front_only_activated (s : State) (v : View) (hnd : s.views.Nodup)
    (hv : v ∈ s.views) (hf : s.kbd_focus ≠ some (surfaceOf v))
    (hact : ActivatedOnlyFocused s) :
    (focus s (some v) (some (surfaceOf v))).views.head? = some v ∧
    (focus s (some v) (some (surfaceOf v))).views =
      v :: s.views.filter (fun w => decide (w ≠ v)) ∧
    (focus s (some v) (some (surfaceOf v))).views.Perm s.views ∧
    (∀ a b : View, a ≠ v → b ≠ v →
      (Before s.views a b ↔ Before (focus s (some v) (some (surfaceOf v))).views a b)) ∧
    (∀ w : View, (focus s (some v) (some (surfaceOf v))).activated w = true ↔ w = v) ∧
    (∀ p : View, s.kbd_focus = some (surfaceOf p) →
      (focus s (some v) (some (surfaceOf v))).activated p = false) ∧
    (focus s (some v) (some (surfaceOf v))).kbd_focus = some (surfaceOf v) := by
  have hviews : (focus s (some v) (some (surfaceOf v))).views = v :: s.views.erase v := by
    rw [focus_eq s v _ hf]
  have hactw : ∀ w : View,
      (focus s (some v) (some (surfaceOf v))).activated w = true ↔ w = v := by
    intro w
    rw [focus_eq s v _ hf]
    constructor
    · intro hw
      by_contra hne
      simp only [Function.update_noteq hne] at hw
      cases hk : s.kbd_focus with
      | none =>
        rw [hk] at hw
        have := hact w hw
        rw [hk] at this
        exact Option.noConfusion this
      | some p =>
        rw [hk] at hw
        by_cases hwp : w = p
        · subst hwp
          simp at hw
        · simp only [Function.update_noteq hwp] at hw
          have := hact w hw
          rw [hk] at this
          exact hwp (Option.some.inj this).symm
    · intro hw
      subst hw
      simp
  refine ⟨by rw [hviews]; rfl, ?_, ?_, ?_, hactw, ?_, by rw [focus_eq s v _ hf]⟩
  · rw [hviews, hnd.erase_eq_filter]
    congr 1
    apply List.filter_congr
    intro w _
    cases hwv : decide (w = v) <;> simp_all [bne]
  · rw [hviews]
    exact (List.perm_cons_erase hv).symm
  · intro a b ha hb
    rw [before_filter_iff s.views v a b ha hb,
      before_filter_iff (focus s (some v) (some (surfaceOf v))).views v a b ha hb, hviews,
      List.filter_cons, filter_ne_erase]
    simp
  · intro p hp
    have hpv : p ≠ v := by
      intro h
      subst h
      exact hf hp
    cases hq : (focus s (some v) (some (surfaceOf v))).activated p with
    | false => rfl
    | true => exact absurd ((hactw p).mp hq) hpv

/-- C2 on the registry `[1, 2, 3]` with view 1 focused: focusing view 3 gives
`[3, 1, 2]`, view 3 activated and view 1 deactivated. -/
theorem focus_front_only_activated_witness :
    sampleABC.views.Nodup ∧ 3 ∈ sampleABC.views ∧
    sampleABC.kbd_focus ≠ some (surfaceOf 3) ∧ ActivatedOnlyFocused sampleABC ∧
    (focus sampleABC (some 3) (some (surfaceOf 3))).views = [3, 1, 2] ∧
    (focus sampleABC (some 3) (some (surfaceOf 3))).activated 3 = true ∧
    (focus sampleABC (some 3) (some (surfaceOf 3))).activated 1 = false :=
  have h1 : sampleABC.views.Nodup := by decide
  have h2 : 3 ∈ sampleABC.views := by decide
  have h3 : sampleABC.kbd_focus ≠ some (surfaceOf 3) := by decide
  have h4 : ActivatedOnlyFocused sampleABC := by
    intro w hw
    have : w = 1 := by simpa [sampleABC] using hw
    subst this
    rfl
  have h := focus_front_only_activated sampleABC 3 h1 h2 h3 h4
  ⟨h1, h2, h3, h4, h.2.1.trans (by decide), (h.2.2.2.2.1 3).mpr rfl, h.2.2.2.2.2.1 1 rfl⟩

/-- C3: `focus` returns the state it was given, with no call into the substrate,
when the view is `NULL` or the surface passed is the keyboard-focused surface;
hence a second `focus` of a view with its own surface changes nothing, and with
any surface a second identical call changes no state variable (it can only
repeat substrate calls). -/
theorem focus_noop (s : State) (view : Option View) (surface : Option Surface) :
    ((view = none ∨ s.kbd_focus = surface) → focus s view surface = s) ∧
    focus (focus s view (view.map surfaceOf)) view (view.map surfaceOf) =
      focus s view (view.map surfaceOf) ∧
    { focus (focus s view surface) view surface with out := [] } =
      { focus s view surface with out := [] } := by
  have hnoop : ∀ (t : State) (vw : Option View) (sf : Option Surface),
      (vw = none ∨ t.kbd_focus = sf) → focus t vw sf = t := by
    intro t vw sf h
    cases vw with
    | none => rfl
    | some v =>
      rcases h with h | h
      · exact Option.noConfusion h
      · simp [focus, h]
  refine ⟨hnoop s view surface, ?_, ?_⟩
  · cases view with
    | none => rfl
    | some v =>
      by_cases h : s.kbd_focus = some (surfaceOf v)
      · simp only [Option.map_some']
        rw [hnoop s _ _ (Or.inr h), hnoop s _ _ (Or.inr h)]
      · simp only [Option.map_some']
        apply hnoop
        right
        rw [focus_eq s v _ h]
  · cases view with
    | none => rfl
    | some v =>
      by_cases h : s.kbd_focus = surface
      · rw [hnoop s _ _ (Or.inr h), hnoop s _ _ (Or.inr h)]
      · by_cases h2 : (focus s (some v) surface).kbd_focus = surface
        · rw [hnoop _ _ _ (Or.inr h2)]
        · rw [focus_eq _ v surface h2, focus_eq s v surface h]
          simp [surfaceOf]

/-- C3 on the registry `[1, 2, 3]` with view 1 focused: `focus` of view 1 with
its own surface, and `focus` of `NULL`, return the state unchanged. -/
theorem focus_noop_witness :
    (some 1 = none ∨ sampleABC.kbd_focus = some (surfaceOf 1)) ∧
    focus sampleABC (some 1) (some (surfaceOf 1)) = sampleABC ∧
    focus sampleABC none (some 7) = sampleABC :=
  ⟨Or.inr rfl, (focus_noop sampleABC (some 1) (some (surfaceOf 1))).1 (Or.inr rfl),
   (focus_noop sampleABC none (some 7)).1 (Or.inl rfl)⟩

/-! ## Invariant of the reachable states -/

/-- In a duplicate-free list no view stands before the first one. -/
theorem not_before_head (v u : View) (l : List View) (h : (v :: l).Nodup) :
    ¬ Before (v :: l) u v := by
  intro hb
  have hv : v ∉ l := (List.nodup_cons.mp h).1
  rcases List.sublist_cons_iff.mp hb with h1 | ⟨r, hr, h2⟩
  · exact hv (h1.subset (by simp))
  · have : r = [v] := by
      have := List.cons.inj hr
      exact this.2.symm
    subst this
    exact hv (h2.subset (by simp))

/-- In a duplicate-free list a view does not stand before itself. -/
theorem before_ne (l : List View) (u v : View) (h : l.Nodup) (hb : Before l u v) :
    u ≠ v := by
  intro huv
  subst huv
  have := h.sublist hb
  simp at this

/-- Equal cores are symmetric to compose. -/
theorem sameCore_trans {s t r : State} (h1 : SameCore s t) (h2 : SameCore t r) :
    SameCore s r :=
  ⟨h2.1.trans h1.1, h2.2.1.trans h1.2.1, h2.2.2.1.trans h1.2.2.1,
   h2.2.2.2.trans h1.2.2.2⟩

/-- The invariant only reads the core. -/
theorem Inv.of_sameCore {s t : State} (h : SameCore s t) (hs : Inv s) : Inv t := by
  obtain ⟨hv, hm, hk, ha⟩ := h
  refine ⟨by rw [hv]; exact hs.1, ?_, ?_⟩
  · intro w hw
    rw [hk]
    exact hs.2.1 w (by rw [← ha]; exact hw)
  · intro u v hb hf
    rw [hm]
    exact hs.2.2 u v (by rw [← hv]; exact hb) (by rw [← hk]; exact hf)

/-- Logging a substrate call leaves the core alone. -/
theorem emit_sameCore (s : State) (e : Effect) : SameCore s (s.emit e) :=
  ⟨rfl, rfl, rfl, rfl⟩

/-- A loop whose body leaves the core alone leaves the core alone. -/
theorem foldl_sameCore {α : Type} (f : State → α → State)
    (hf : ∀ s a, SameCore s (f s a)) (l : List α) (s : State) :
    SameCore s (l.foldl f s) := by
  induction l generalizing s with
  | nil => exact ⟨rfl, rfl, rfl, rfl⟩
  | cons a rest ih => exact sameCore_trans (hf s a) (ih (f s a))

/-- The function `moveresize` leaves the core alone. -/
theorem moveresize_sameCore (env : Substrate) (s : State) (v : View) (mode edges : Nat) :
    SameCore s (moveresize env s v mode edges) := by
  unfold moveresize
  dsimp only
  split_ifs <;> exact ⟨rfl, rfl, rfl, rfl⟩

/-- The action `movemouse` leaves the core alone. -/
theorem movemouse_sameCore (env : Substrate) (s : State) : SameCore s (movemouse env s) := by
  unfold movemouse
  split
  · exact ⟨rfl, rfl, rfl, rfl⟩
  · exact moveresize_sameCore env s _ _ _

/-- The action `resizemouse` leaves the core alone. -/
theorem resizemouse_sameCore (env : Substrate) (s : State) :
    SameCore s (resizemouse env s) := by
  unfold resizemouse
  split
  · exact ⟨rfl, rfl, rfl, rfl⟩
  · exact sameCore_trans ⟨rfl, rfl, rfl, rfl⟩ (moveresize_sameCore env _ _ _ _)

/-- The function `handlemove` leaves the core alone. -/
theorem handlemove_sameCore (s : State) : SameCore s (handlemove s) := by
  unfold handlemove
  split <;> exact ⟨rfl, rfl, rfl, rfl⟩

/-- The function `handleresize` leaves the core alone. -/
theorem handleresize_sameCore (s : State) : SameCore s (handleresize s) := by
  unfold handleresize
  split <;> exact ⟨rfl, rfl, rfl, rfl⟩

/-- The function `motionnotify` leaves the core alone. -/
theorem motionnotify_sameCore (env : Substrate) (s : State) (time : Nat) :
    SameCore s (motionnotify env s time) := by
  unfold motionnotify
  split_ifs
  · exact handlemove_sameCore s
  · exact handleresize_sameCore s
  · split
    · exact ⟨rfl, rfl, rfl, rfl⟩
    · dsimp only
      split_ifs <;> exact ⟨rfl, rfl, rfl, rfl⟩

/-- The frame handler leaves the core alone. -/
theorem renderoutput_sameCore (s : State) (attach_ok : Bool) :
    SameCore s (renderoutput s attach_ok) := by
  unfold renderoutput
  split_ifs
  · exact ⟨rfl, rfl, rfl, rfl⟩
  · apply foldl_sameCore
    intro t v
    split_ifs
    · exact ⟨rfl, rfl, rfl, rfl⟩
    · exact emit_sameCore t _

/-- A `focus` call that does not return early establishes the invariant, from a
duplicate-free registry in which only the focused toplevel may be activated. -/
theorem focus_change_inv (s : State) (v : View) (surface : Option Surface)
    (h1 : s.views.Nodup) (h2 : ActivatedOnlyFocused s) (hk : s.kbd_focus ≠ surface) :
    Inv (focus s (some v) surface) := by
  have hnd : (v :: s.views.erase v).Nodup := nodup_cons_erase _ _ h1
  rw [focus_eq s v surface hk]
  refine ⟨hnd, ?_, ?_⟩
  · intro w hw
    dsimp only at hw ⊢
    by_cases hwv : w = v
    · rw [hwv]
    · exfalso
      rw [Function.update_noteq hwv] at hw
      cases hp : s.kbd_focus with
      | none =>
        rw [hp] at hw
        have := h2 w hw
        rw [hp] at this
        exact Option.noConfusion this
      | some p =>
        rw [hp] at hw
        by_cases hwp : w = p
        · subst hwp
          simp at hw
        · simp only [Function.update_noteq hwp] at hw
          have := h2 w hw
          rw [hp] at this
          exact hwp (Option.some.inj this).symm
  · intro u w hb hf
    dsimp only at hb hf
    have hwv : w = v := (Option.some.inj hf).symm
    subst hwv
    exact absurd hb (not_before_head _ _ _ hnd)

/-- The function `focus` keeps the invariant. -/
theorem focus_inv (s : State) (view : Option View) (surface : Option Surface)
    (h : Inv s) : Inv (focus s view surface) := by
  cases view with
  | none => exact h
  | some v =>
    by_cases hk : s.kbd_focus = surface
    · have : focus s (some v) surface = s := by simp [focus, hk]
      rw [this]
      exact h
    · exact focus_change_inv s v surface h.1 h.2.1 hk

/-- The action `focusnext` keeps the invariant. -/
theorem focusnext_inv (s : State) (h : Inv s) : Inv (focusnext s) := by
  unfold focusnext
  split_ifs with hlen
  · exact h
  · split
    · rename_i c n rest hviews
      have hnd : (c :: n :: rest).Nodup := by rw [← hviews]; exact h.1
      have hcn : c ≠ n := by
        intro e
        subst e
        simp at hnd
      have hfi := focus_inv s (some n) (some (surfaceOf n)) h
      have hfv := focus_views s (some n) (some (surfaceOf n))
      dsimp only at hfv
      have hkf : (focus s (some n) (some (surfaceOf n))).kbd_focus = some (surfaceOf n) := by
        by_cases hk : s.kbd_focus = some (surfaceOf n)
        · have : focus s (some n) (some (surfaceOf n)) = s := by simp [focus, hk]
          rw [this]
          exact hk
        · rw [focus_eq s n _ hk]
      have hlist : wl_list_insert_last
          (wl_list_remove (focus s (some n) (some (surfaceOf n))).views c) c
            = n :: (rest ++ [c]) := by
        rw [hfv, hviews]
        split_ifs
        · simp [wl_list_insert_last, wl_list_remove]
        · have : (c :: n :: rest).erase n = c :: rest := by
            rw [List.erase_cons_tail (by simpa using hcn)]
            simp
          rw [this]
          simp [wl_list_insert_last, wl_list_remove, List.erase_cons_tail, hcn.symm]
      have hnd2 : (n :: (rest ++ [c])).Nodup := by
        have hp : (n :: (rest ++ [c])).Perm (c :: n :: rest) := by
          have h1 : (rest ++ [c]).Perm (c :: rest) := List.perm_append_singleton c rest
          exact (List.Perm.cons n h1).trans (List.Perm.swap c n rest)
        exact hp.nodup_iff.mpr hnd
      refine ⟨?_, ?_, ?_⟩
      · show (wl_list_insert_last _ c).Nodup
        rw [hlist]
        exact hnd2
      · exact hfi.2.1
      · intro u w hb hf
        exfalso
        have hb2 : Before (n :: (rest ++ [c])) u w := by
          rw [← hlist]
          exact hb
        have hwn : w = n := by
          have hf2 : (focus s (some n) (some (surfaceOf n))).kbd_focus = some (surfaceOf w) := hf
          rw [hkf] at hf2
          exact (Option.some.inj hf2).symm
        subst hwn
        exact not_before_head _ _ _ hnd2 hb2
    · exact h

/-- Handler `createnotify` keeps the invariant when the new view is not live. -/
theorem createnotify_inv (s : State) (v : View) (toplevel : Bool) (h : Inv s)
    (hv : v ∉ s.views) : Inv (createnotify s v toplevel) := by
  unfold createnotify
  split_ifs
  · exact h
  · refine ⟨List.nodup_cons.mpr ⟨hv, h.1⟩, h.2.1, ?_⟩
    intro u w hb hf
    dsimp only [wl_list_insert_head] at hb hf ⊢
    by_cases huv : u = v
    · rw [huv]
      simp
    · rw [Function.update_noteq huv]
      rcases List.sublist_cons_iff.mp hb with h1 | ⟨r, hr, _⟩
      · exact h.2.2 u w h1 hf
      · exact absurd (List.cons.inj hr).1 huv

/-- Handler `destroynotify` keeps the invariant. -/
theorem destroynotify_inv (s : State) (v : View) (h : Inv s) :
    Inv (destroynotify s v) := by
  refine ⟨h.1.erase v, h.2.1, ?_⟩
  intro u w hb hf
  exact h.2.2 u w (List.Sublist.trans hb (List.erase_sublist v s.views)) hf

/-- Handler `unmapnotify` keeps the invariant. -/
theorem unmapnotify_inv (s : State) (v : View) (h : Inv s) : Inv (unmapnotify s v) := by
  refine ⟨h.1, h.2.1, ?_⟩
  intro u w hb hf
  dsimp only [unmapnotify] at hb hf ⊢
  by_cases huv : u = v
  · rw [huv]
    simp
  · rw [Function.update_noteq huv]
    exact h.2.2 u w hb hf

/-- Handler `maprequest` keeps the invariant. -/
theorem maprequest_inv (s : State) (v : View) (h : Inv s) : Inv (maprequest s v) := by
  unfold maprequest
  by_cases hk : s.kbd_focus = some (surfaceOf v)
  · have : focus { s with mapped := Function.update s.mapped v true } (some v)
        (some (surfaceOf v)) = { s with mapped := Function.update s.mapped v true } := by
      simp [focus, hk]
    rw [this]
    refine ⟨h.1, h.2.1, ?_⟩
    intro u w hb hf
    dsimp only at hb hf ⊢
    have hwv : w = v := by
      rw [hk] at hf
      exact (Option.some.inj hf).symm
    subst hwv
    rw [Function.update_noteq (before_ne _ _ _ h.1 hb)]
    exact h.2.2 u w hb hf
  · exact focus_change_inv _ v _ h.1 h.2.1 hk

/-- Every action a binding can name keeps the invariant. -/
theorem Func.call_inv (fn : Func) (env : Substrate) (arg : Arg) (s : State) (h : Inv s) :
    Inv (fn.call env arg s) := by
  cases fn with
  | focusnext => exact focusnext_inv s h
  | movemouse => exact Inv.of_sameCore (movemouse_sameCore env s) h
  | quit => exact Inv.of_sameCore (emit_sameCore s _) h
  | resizemouse => exact Inv.of_sameCore (resizemouse_sameCore env s) h
  | spawn =>
    show Inv (Dwl.spawn s arg)
    unfold Dwl.spawn
    split <;> exact Inv.of_sameCore (emit_sameCore s _) h

/-- The function `keybinding` keeps the invariant. -/
theorem keybinding_inv (env : Substrate) (keys : List Key) (mods sym : Nat) (s : State)
    (h : Inv s) : Inv (keybinding env keys mods sym s).2 := by
  unfold keybinding
  generalize false = b
  induction keys generalizing s b with
  | nil => exact h
  | cons k rest ih =>
    rw [List.foldl_cons]
    unfold keybinding_step
    split_ifs
    · cases hfn : k.func with
      | none => exact ih s h b
      | some fn => exact ih _ (Func.call_inv fn env k.arg s h) _
    · exact ih s h b

/-- Handler `keypress` keeps the invariant. -/
theorem keypress_inv (env : Substrate) (keys : List Key) (device time keycode : Nat)
    (state : PressState) (syms : List Nat) (mods : Nat) (s : State) (h : Inv s) :
    Inv (keypress env keys device time keycode state syms mods s) := by
  have hfold : ∀ (l : List Nat) (b : Bool) (t : State), Inv t →
      Inv (l.foldl
        (fun acc sym =>
          let r := keybinding env keys mods sym acc.2
          (r.1 || acc.1, r.2))
        (b, t)).2 := by
    intro l
    induction l with
    | nil => intro b t ht; exact ht
    | cons sym rest ih =>
      intro b t ht
      rw [List.foldl_cons]
      exact ih _ _ (keybinding_inv env keys mods sym t ht)
  unfold keypress
  dsimp only
  split_ifs
  · exact Inv.of_sameCore (sameCore_trans (emit_sameCore _ _) (emit_sameCore _ _)) (hfold syms false s h)
  · exact hfold syms false s h
  · exact Inv.of_sameCore (sameCore_trans (emit_sameCore _ _) (emit_sameCore _ _)) h
  · exact h

/-- Handler `buttonpress` keeps the invariant. -/
theorem buttonpress_inv (env : Substrate) (buttons : List Button) (time button : Nat)
    (state : PressState) (mods : Nat) (s : State) (h : Inv s) :
    Inv (buttonpress env buttons time button state mods s) := by
  have hfold : ∀ (l : List Button) (t : State), Inv t →
      Inv (l.foldl (button_step env mods button) t) := by
    intro l
    induction l with
    | nil => intro t ht; exact ht
    | cons b rest ih =>
      intro t ht
      rw [List.foldl_cons]
      apply ih
      unfold button_step
      split_ifs
      · cases hfn : b.func with
        | none => exact ht
        | some fn => exact Func.call_inv fn env b.arg t ht
      · exact ht
  have h1 : Inv (s.emit (Effect.pointer_notify_button time button state)) :=
    Inv.of_sameCore (emit_sameCore s _) h
  unfold buttonpress
  dsimp only
  split_ifs
  · exact Inv.of_sameCore ⟨rfl, rfl, rfl, rfl⟩ h1
  · exact hfold _ _ (focus_inv _ _ _ h1)

/-- Every handler keeps the invariant on a well-formed event. -/
theorem handle_inv (cfg : Config) (s : State) (e : Event) (h : Inv s) (hok : e.ok s) :
    Inv (handle cfg s e) := by
  cases e with
  | create v toplevel => exact createnotify_inv s v toplevel h hok
  | map v => exact maprequest_inv s v h
  | unmap v => exact unmapnotify_inv s v h
  | destroy v => exact destroynotify_inv s v h
  | button env time button state mods => exact buttonpress_inv env _ _ _ _ _ s h
  | key env device time keycode state syms mods => exact keypress_inv env _ _ _ _ _ _ _ s h
  | motion_relative env dx dy time =>
    exact Inv.of_sameCore
      (sameCore_trans ⟨rfl, rfl, rfl, rfl⟩ (motionnotify_sameCore env _ time)) h
  | motion_absolute env lx ly time =>
    exact Inv.of_sameCore
      (sameCore_trans ⟨rfl, rfl, rfl, rfl⟩ (motionnotify_sameCore env _ time)) h
  | frame attach_ok => exact Inv.of_sameCore (renderoutput_sameCore s attach_ok) h

/-- Every reachable state has a duplicate-free registry, no activated toplevel
other than the keyboard-focused one, and only unmapped views before the
keyboard-focused view. -/
theorem reachable_inv (cfg : Config) (s : State) (h : Reachable cfg s) : Inv s := by
  induction h with
  | init =>
    refine ⟨List.nodup_nil, ?_, ?_⟩
    · intro w hw
      simp [State.init] at hw
    · intro u v hb
      simp [State.init, Before] at hb
  | step e _ hok ih => exact handle_inv cfg _ e ih hok

/-! ## Focus and stacking order -/

/-- The state after view 1 is created and mapped and view 2 is created is
reachable. -/
theorem createMapCreate_reachable :
    Reachable emptyConfig (createMapCreate.foldl (handle emptyConfig) State.init) := by
  have h1 : Reachable emptyConfig (handle emptyConfig State.init (Event.create 1 true)) :=
    Reachable.step _ Reachable.init (by simp [Event.ok, State.init])
  have h2 := Reachable.step (Event.map 1) h1
    (by simp [Event.ok, handle, createnotify, wl_list_insert_head])
  have h3 := Reachable.step (Event.create 2 true) h2 (by
    show (2 : View) ∉ (handle emptyConfig (handle emptyConfig State.init
      (Event.create 1 true)) (Event.map 1)).views
    decide)
  exact h3

/-- C4 fails as stated: after view 1 is created and mapped and view 2 is
created, the registry is `[2, 1]` and view 1, at index 1, holds keyboard
focus. -/
theorem focused_view_not_front :
    Reachable emptyConfig (createMapCreate.foldl (handle emptyConfig) State.init) ∧
    (createMapCreate.foldl (handle emptyConfig) State.init).views = [2, 1] ∧
    (createMapCreate.foldl (handle emptyConfig) State.init).kbd_focus
      = some (surfaceOf 1) ∧
    ¬ FocusedIsFront (createMapCreate.foldl (handle emptyConfig) State.init) := by
  refine ⟨createMapCreate_reachable, by decide, by decide, ?_⟩
  intro h
  have := h 1 (by decide) (by decide)
  revert this
  decide

/-- C4 as amended: in every reachable state each view that stands before the
keyboard-focused view in the registry is unmapped, so the keyboard-focused view
is the front element whenever every view of the registry is mapped. -/
theorem reachable_focused_behind_unmapped (cfg : Config) (s : State)
    (h : Reachable cfg s) :
    (∀ u v : View, Before s.views u v → s.kbd_focus = some (surfaceOf v) →
      s.mapped u = false) ∧
    ((∀ w : View, w ∈ s.views → s.mapped w = true) → FocusedIsFront s) := by
  have hinv := reachable_inv cfg s h
  refine ⟨hinv.2.2, ?_⟩
  intro hall v hv hf
  cases hl : s.views with
  | nil =>
    rw [hl] at hv
    cases hv
  | cons a rest =>
    by_cases hav : a = v
    · rw [hav]
      rfl
    · exfalso
      have hvr : v ∈ rest := by
        rw [hl] at hv
        rcases List.mem_cons.mp hv with h1 | h1
        · exact absurd h1.symm hav
        · exact h1
      have hb : Before s.views a v := by
        rw [hl]
        exact List.Sublist.cons₂ a (List.singleton_sublist.mpr hvr)
      have h1 := hinv.2.2 a v hb hf
      have h2 := hall a (by rw [hl]; exact List.mem_cons_self a rest)
      rw [h1] at h2
      exact Bool.noConfusion h2

/-- C4 as amended, after view 1 is created and mapped and view 2 is created:
view 2 stands before the focused view 1 and is unmapped. -/
theorem reachable_focused_behind_unmapped_witness :
    Reachable emptyConfig (createMapCreate.foldl (handle emptyConfig) State.init) ∧
    Before (createMapCreate.foldl (handle emptyConfig) State.init).views 2 1 ∧
    (createMapCreate.foldl (handle emptyConfig) State.init).mapped 2 = false :=
  ⟨createMapCreate_reachable, by unfold Before; decide,
   (reachable_focused_behind_unmapped emptyConfig _ createMapCreate_reachable).1 2 1
     (by unfold Before; decide) (by decide)⟩

/-! ## Bindings -/

/-- Setting the Caps-Lock bit does not change the cleaned mask. -/
theorem CLEANMASK_or_caps (mods : Nat) :
    CLEANMASK (mods ||| WLR_MODIFIER_CAPS) = CLEANMASK mods := by
  unfold CLEANMASK
  rw [Nat.and_comm, Nat.and_or_distrib_left]
  have : (2 ^ 32 - 1 - WLR_MODIFIER_CAPS) &&& WLR_MODIFIER_CAPS = 0 := by decide
  rw [this, Nat.or_zero, Nat.and_comm]

/-- Cleaning a mask twice is cleaning it once. -/
theorem CLEANMASK_idem (mods : Nat) : CLEANMASK (CLEANMASK mods) = CLEANMASK mods := by
  unfold CLEANMASK
  rw [Nat.and_assoc, Nat.and_self]

/-- One iteration of the loop of `keybinding`, by the test. -/
theorem keybinding_step_eq (env : Substrate) (mods sym : Nat) (acc : Bool × State) (k : Key) :
    keybinding_step env mods sym acc k =
      if k.fires mods sym then (true, k.invoke env acc.2) else acc := by
  unfold keybinding_step Key.fires Key.invoke
  by_cases h : sym = k.keysym ∧ CLEANMASK mods = CLEANMASK k.mod
  · cases hf : k.func <;> simp [h.1, h.2]
  · rw [if_neg h]
    rcases not_and_or.mp h with h1 | h1 <;> simp [h1]

/-- The loop of `keybinding` from any value of `handled`. -/
theorem keybinding_loop (env : Substrate) (mods sym : Nat) (keys : List Key) (b : Bool)
    (s : State) :
    keys.foldl (keybinding_step env mods sym) (b, s) =
      (b || keys.any (Key.fires mods sym),
       (keys.filter (Key.fires mods sym)).foldl (Key.invoke env) s) := by
  induction keys generalizing b s with
  | nil => simp
  | cons k rest ih =>
    rw [List.foldl_cons, keybinding_step_eq]
    cases hk : k.fires mods sym
    · simp [ih, List.filter_cons, hk]
    · simp [ih, List.filter_cons, hk]

/-- The value and the state `keybinding` returns, by the entries that pass the
test. -/
theorem keybinding_eq (env : Substrate) (keys : List Key) (mods sym : Nat) (s : State) :
    keybinding env keys mods sym s =
      (keys.any (Key.fires mods sym),
       (keys.filter (Key.fires mods sym)).foldl (Key.invoke env) s) := by
  unfold keybinding
  rw [keybinding_loop]
  simp

/-- One iteration of the loop over `buttons`, by the test. -/
theorem button_step_eq (env : Substrate) (mods button : Nat) (s : State) (b : Button) :
    button_step env mods button s b =
      if b.fires mods button then b.invoke env s else s := by
  unfold button_step Button.fires Button.invoke
  by_cases h : button = b.button ∧ CLEANMASK mods = CLEANMASK b.mod
  · cases hf : b.func <;> simp [h.1, h.2]
  · rw [if_neg h]
    rcases not_and_or.mp h with h1 | h1 <;> simp [h1]

/-- The loop over `buttons`, by the entries that pass the test. -/
theorem button_loop (env : Substrate) (mods button : Nat) (buttons : List Button)
    (s : State) :
    buttons.foldl (button_step env mods button) s =
      (buttons.filter (Button.fires mods button)).foldl (Button.invoke env) s := by
  induction buttons generalizing s with
  | nil => rfl
  | cons b rest ih =>
    rw [List.foldl_cons, button_step_eq]
    cases hb : b.fires mods button
    · simp [ih, List.filter_cons, hb]
    · simp [ih, List.filter_cons, hb]

/-- C5: with and without the Caps-Lock bit in the modifier mask, `keybinding`
tests the same entries positive, returns the same value and leaves the same
state, and so does `buttonpress` with its scan of the button bindings. -/
theorem caps_lock_never_matters (env : Substrate) (keys : List Key)
    (buttons : List Button) (mods sym time button : Nat) (state : PressState)
    (s : State) :
    keys.filter (Key.fires (mods ||| WLR_MODIFIER_CAPS) sym) =
      keys.filter (Key.fires mods sym) ∧
    keybinding env keys (mods ||| WLR_MODIFIER_CAPS) sym s = keybinding env keys mods sym s ∧
    buttons.filter (Button.fires (mods ||| WLR_MODIFIER_CAPS) button) =
      buttons.filter (Button.fires mods button) ∧
    buttonpress env buttons time button state (mods ||| WLR_MODIFIER_CAPS) s =
      buttonpress env buttons time button state mods s := by
  have hk : Key.fires (mods ||| WLR_MODIFIER_CAPS) sym = Key.fires mods sym := by
    funext k
    simp [Key.fires, CLEANMASK_or_caps]
  have hb : Button.fires (mods ||| WLR_MODIFIER_CAPS) button = Button.fires mods button := by
    funext b
    simp [Button.fires, CLEANMASK_or_caps]
  refine ⟨by rw [hk], by rw [keybinding_eq, keybinding_eq, hk], by rw [hb], ?_⟩
  unfold buttonpress
  simp only [button_loop, hb]

/-- C6: `keybinding` invokes, in table order, the action of every entry that
passes its test (same keysym, same modifiers once Caps-Lock is cleared, an
action present) and of no other entry, and returns true exactly when some entry
passed; every entry with an action whose keysym is the given one and whose
modifiers are the Caps-Lock-cleared event modifiers is among them, in table
order, and these are all of them when no table entry carries the Caps-Lock
bit. -/
theorem keybinding_invokes_all_matches (env : Substrate) (keys : List Key)
    (mods sym : Nat) (s : State) :
    (keybinding env keys mods sym s).2 =
      (keys.filter (Key.fires mods sym)).foldl (Key.invoke env) s ∧
    ((keybinding env keys mods sym s).1 = true ↔ keys.filter (Key.fires mods sym) ≠ []) ∧
    (keys.filter (Key.fires mods sym)).Sublist keys ∧
    (keys.filter (Key.bound mods sym)).Sublist (keys.filter (Key.fires mods sym)) ∧
    (∀ k : Key, k ∈ keys → k.keysym = sym → k.mod = CLEANMASK mods → k.func ≠ none →
      k ∈ keys.filter (Key.fires mods sym)) ∧
    ((∀ k : Key, k ∈ keys → CLEANMASK k.mod = k.mod) →
      keys.filter (Key.fires mods sym) = keys.filter (Key.bound mods sym)) := by
  have himp : ∀ k : Key, Key.bound mods sym k = true → Key.fires mods sym k = true := by
    intro k hk
    simp only [Key.bound, Bool.and_eq_true, decide_eq_true_eq] at hk
    simp only [Key.fires, Bool.and_eq_true, decide_eq_true_eq]
    exact ⟨⟨hk.1.1.symm, by rw [hk.1.2, CLEANMASK_idem]⟩, hk.2⟩
  refine ⟨by rw [keybinding_eq], ?_, List.filter_sublist keys, ?_, ?_, ?_⟩
  · rw [keybinding_eq]
    simp [List.filter_eq_nil_iff]
  · exact List.monotone_filter_right keys himp
  · intro k hk h1 h2 h3
    rw [List.mem_filter]
    refine ⟨hk, himp k ?_⟩
    simp only [Key.bound, Bool.and_eq_true, decide_eq_true_eq]
    refine ⟨⟨h1, h2⟩, ?_⟩
    cases hf : k.func with
    | none => exact absurd hf h3
    | some fn => rfl
  · intro hcaps
    apply List.filter_congr
    intro k hk
    have hm := hcaps k hk
    simp only [Key.fires, Key.bound, hm]
    by_cases h1 : sym = k.keysym
    · by_cases h2 : CLEANMASK mods = k.mod
      · simp [h1, h2]
      · have h3 : ¬ k.mod = CLEANMASK mods := fun h => h2 h.symm
        simp [h1, h2, h3]
    · have h3 : ¬ k.keysym = sym := fun h => h1 h.symm
      simp [h1, h3]

/-- C6 on a table with two entries on one chord: both commands are spawned, in
table order, and `keybinding` returns true. -/
theorem keybinding_invokes_all_matches_witness :
    (∀ k : Key, k ∈ stackedKeys → CLEANMASK k.mod = k.mod) ∧
    stackedKeys.filter (Key.fires 8 112) = stackedKeys ∧
    (keybinding emptySubstrate stackedKeys 8 112 State.init).1 = true ∧
    (keybinding emptySubstrate stackedKeys 8 112 State.init).2.out =
      [Effect.spawn ["menu"], Effect.spawn ["term"]] :=
  have h := keybinding_invokes_all_matches emptySubstrate stackedKeys 8 112 State.init
  have hc : ∀ k : Key, k ∈ stackedKeys → CLEANMASK k.mod = k.mod := by decide
  ⟨hc, (h.2.2.2.2.2 hc).trans (by decide), h.2.1.mpr (by decide), by rw [h.1]; rfl⟩

/-! ## The log of substrate calls -/

/-- Nothing appended. -/
theorem Appends.refl (P : Effect → Prop) (s : State) : Appends P s s :=
  ⟨[], by simp, by simp⟩

/-- Appending composes. -/
theorem appends_trans {P : Effect → Prop} {s t r : State} (h1 : Appends P s t)
    (h2 : Appends P t r) : Appends P s r := by
  obtain ⟨e1, h1, p1⟩ := h1
  obtain ⟨e2, h2, p2⟩ := h2
  refine ⟨e1 ++ e2, by rw [h2, h1, List.append_assoc], ?_⟩
  intro e he
  rcases List.mem_append.mp he with h | h
  · exact p1 e h
  · exact p2 e h

/-- A state with the same log appends nothing. -/
theorem Appends.of_out_eq (P : Effect → Prop) {s t : State} (h : t.out = s.out) :
    Appends P s t :=
  ⟨[], by simp [h], by simp⟩

/-- One logged call. -/
theorem Appends.emit (P : Effect → Prop) (s : State) (e : Effect) (h : P e) :
    Appends P s (s.emit e) :=
  ⟨[e], rfl, by simpa using h⟩

/-- The function `focus` only appends activation changes and a keyboard enter. -/
theorem focus_appends (s : State) (view : Option View) (surface : Option Surface) :
    Appends (fun e => e.fromAction = true) s (focus s view surface) := by
  cases view with
  | none => exact Appends.refl _ s
  | some v =>
    by_cases hk : s.kbd_focus = surface
    · have : focus s (some v) surface = s := by simp [focus, hk]
      rw [this]
      exact Appends.refl _ s
    · rw [focus_eq s v surface hk]
      refine ⟨_, rfl, ?_⟩
      intro e he
      cases hp : s.kbd_focus with
      | none =>
        rw [hp] at he
        simp at he
        rcases he with h | h <;> subst h <;> rfl
      | some p =>
        rw [hp] at he
        simp at he
        rcases he with h | h | h <;> subst h <;> rfl

/-- The action `focusnext` only appends what `focus` appends. -/
theorem focusnext_appends (s : State) :
    Appends (fun e => e.fromAction = true) s (focusnext s) := by
  unfold focusnext
  split_ifs
  · exact Appends.refl _ s
  · split
    · exact appends_trans (focus_appends s _ _) (Appends.of_out_eq _ rfl)
    · exact Appends.refl _ s

/-- The function `moveresize` logs nothing. -/
theorem moveresize_out (env : Substrate) (s : State) (v : View) (mode edges : Nat) :
    (moveresize env s v mode edges).out = s.out := by
  unfold moveresize
  dsimp only
  split_ifs <;> rfl

/-- Every action of a binding table only appends action calls. -/
theorem Func.call_appends (fn : Func) (env : Substrate) (arg : Arg) (s : State) :
    Appends (fun e => e.fromAction = true) s (fn.call env arg s) := by
  cases fn with
  | focusnext => exact focusnext_appends s
  | movemouse =>
    show Appends _ s (Dwl.movemouse env s)
    unfold Dwl.movemouse
    split
    · exact Appends.refl _ s
    · exact Appends.of_out_eq _ (moveresize_out env s _ _ _)
  | quit => exact Appends.emit _ s _ rfl
  | resizemouse =>
    show Appends _ s (Dwl.resizemouse env s)
    unfold Dwl.resizemouse
    split
    · exact Appends.refl _ s
    · dsimp only
      refine ⟨_, by rw [moveresize_out]; rfl, ?_⟩
      intro e he
      rw [List.mem_singleton] at he
      subst he
      rfl
  | spawn =>
    show Appends _ s (Dwl.spawn s arg)
    unfold Dwl.spawn
    split <;> exact Appends.emit _ s _ rfl

/-- A loop of invoked key bindings only appends action calls. -/
theorem key_invoke_loop_appends (env : Substrate) (l : List Key) (s : State) :
    Appends (fun e => e.fromAction = true) s (l.foldl (Key.invoke env) s) := by
  induction l generalizing s with
  | nil => exact Appends.refl _ s
  | cons k rest ih =>
    rw [List.foldl_cons]
    refine appends_trans ?_ (ih _)
    unfold Key.invoke
    split
    · exact Func.call_appends _ env _ s
    · exact Appends.refl _ s

/-- A loop of invoked button bindings only appends action calls. -/
theorem button_invoke_loop_appends (env : Substrate) (l : List Button) (s : State) :
    Appends (fun e => e.fromAction = true) s (l.foldl (Button.invoke env) s) := by
  induction l generalizing s with
  | nil => exact Appends.refl _ s
  | cons k rest ih =>
    rw [List.foldl_cons]
    refine appends_trans ?_ (ih _)
    unfold Button.invoke
    split
    · exact Func.call_appends _ env _ s
    · exact Appends.refl _ s

/-- The loop of `keypress` over the keysyms only appends action calls. -/
theorem runBindings_appends (env : Substrate) (keys : List Key) (mods : Nat)
    (syms : List Nat) (s : State) :
    Appends (fun e => e.fromAction = true) s (runBindings env keys mods syms s) := by
  unfold runBindings
  induction syms generalizing s with
  | nil => exact Appends.refl _ s
  | cons sym rest ih =>
    rw [List.foldl_cons]
    refine appends_trans ?_ (ih _)
    rw [keybinding_eq]
    exact key_invoke_loop_appends env _ s

/-- The loop of `keypress` over the keysyms, from any value of `handled`. -/
theorem keypress_loop (env : Substrate) (keys : List Key) (mods : Nat) (syms : List Nat)
    (b : Bool) (s : State) :
    syms.foldl
        (fun acc sym =>
          let r := keybinding env keys mods sym acc.2
          (r.1 || acc.1, r.2))
        (b, s) =
      (b || syms.any (fun sym => keys.any (Key.fires mods sym)),
       runBindings env keys mods syms s) := by
  unfold runBindings
  induction syms generalizing b s with
  | nil => simp
  | cons sym rest ih =>
    rw [List.foldl_cons, List.foldl_cons, ih]
    simp only [keybinding_eq, List.any_cons]
    cases b <;> cases keys.any (Key.fires mods sym) <;> simp

/-- With no entry passing the test for any keysym, the loop of `keypress`
leaves the state as it is. -/
theorem runBindings_none (env : Substrate) (keys : List Key) (mods : Nat)
    (syms : List Nat) (s : State)
    (h : ∀ sym ∈ syms, ∀ k ∈ keys, Key.fires mods sym k = false) :
    runBindings env keys mods syms s = s := by
  unfold runBindings
  induction syms generalizing s with
  | nil => rfl
  | cons sym rest ih =>
    rw [List.foldl_cons, keybinding_eq]
    have hnil : keys.filter (Key.fires mods sym) = [] := by
      rw [List.filter_eq_nil_iff]
      intro k hk
      rw [h sym (List.mem_cons_self _ _) k hk]
      simp
    rw [hnil]
    exact ih s (fun sym2 h2 => h sym2 (List.mem_cons_of_mem _ h2))

/-- A weaker property of the appended calls. -/
theorem Appends.mono {P Q : Effect → Prop} {s t : State} (h : Appends P s t)
    (hpq : ∀ e, P e → Q e) : Appends Q s t := by
  obtain ⟨extra, h1, h2⟩ := h
  exact ⟨extra, h1, fun e he => hpq e (h2 e he)⟩

/-- C7: `keypress` forwards the raw event (`wlr_seat_keyboard_notify_key`, after
`wlr_seat_set_keyboard`) and does nothing else when the event is a release or
no table entry passes the test for any of the key's keysyms; on a press for
which some entry passes, it runs the bindings and the calls it makes contain no
forwarded key event. -/
theorem keypress_forwards_iff_unhandled (env : Substrate) (keys : List Key)
    (device time keycode : Nat) (state : PressState) (syms : List Nat) (mods : Nat)
    (s : State) :
    ((state = PressState.released ∨
        ∀ sym ∈ syms, ∀ k ∈ keys, Key.fires mods sym k = false) →
      keypress env keys device time keycode state syms mods s =
        (s.emit (Effect.seat_set_keyboard device)).emit
          (Effect.keyboard_notify_key time keycode state)) ∧
    ((state = PressState.pressed ∧
        ∃ sym ∈ syms, ∃ k ∈ keys, Key.fires mods sym k = true) →
      keypress env keys device time keycode state syms mods s =
        runBindings env keys mods syms s ∧
      Appends (fun e => ∀ t c st, e ≠ Effect.keyboard_notify_key t c st) s
        (keypress env keys device time keycode state syms mods s)) := by
  constructor
  · intro h
    unfold keypress
    by_cases hs : state = PressState.pressed
    · have hnone : ∀ sym ∈ syms, ∀ k ∈ keys, Key.fires mods sym k = false := by
        rcases h with h | h
        · rw [hs] at h
          exact PressState.noConfusion h
        · exact h
      have hany : syms.any (fun sym => keys.any (Key.fires mods sym)) = false := by
        rw [List.any_eq_false]
        intro sym hsym
        rw [Bool.not_eq_true, List.any_eq_false]
        intro k hk
        rw [hnone sym hsym k hk]
        simp
      simp only [if_pos hs, keypress_loop, hany, runBindings_none env keys mods syms s hnone]
      rfl
    · simp only [if_neg hs]
      rfl
  · rintro ⟨hs, sym, hsym, k, hk, hf⟩
    have hany : syms.any (fun sym => keys.any (Key.fires mods sym)) = true := by
      rw [List.any_eq_true]
      exact ⟨sym, hsym, List.any_eq_true.mpr ⟨k, hk, hf⟩⟩
    have heq : keypress env keys device time keycode state syms mods s =
        runBindings env keys mods syms s := by
      unfold keypress
      simp only [if_pos hs, keypress_loop, hany]
      rfl
    refine ⟨heq, ?_⟩
    rw [heq]
    refine (runBindings_appends env keys mods syms s).mono ?_
    intro e he t c st hEq
    rw [hEq] at he
    exact Bool.noConfusion he

/-- C7 on a table binding Alt + keysym 112: the press is consumed (only the
command is spawned) and the release is forwarded. -/
theorem keypress_forwards_iff_unhandled_witness :
    (PressState.pressed = PressState.pressed ∧
      ∃ sym ∈ [112], ∃ k ∈ menuKey, Key.fires 8 sym k = true) ∧
    (keypress emptySubstrate menuKey 0 5 33 PressState.pressed [112] 8 State.init).out =
      [Effect.spawn ["menu"]] ∧
    (keypress emptySubstrate menuKey 0 6 33 PressState.released [112] 8 State.init).out =
      [Effect.seat_set_keyboard 0, Effect.keyboard_notify_key 6 33 PressState.released] :=
  have hp : PressState.pressed = PressState.pressed ∧
      ∃ sym ∈ [112], ∃ k ∈ menuKey, Key.fires 8 sym k = true :=
    ⟨rfl, 112, by simp, ⟨8, 112, some Func.spawn, Arg.v ["menu"]⟩, by simp [menuKey], by decide⟩
  ⟨hp,
   by
    rw [((keypress_forwards_iff_unhandled emptySubstrate menuKey 0 5 33 PressState.pressed
      [112] 8 State.init).2 hp).1]
    rfl,
   by
    rw [(keypress_forwards_iff_unhandled emptySubstrate menuKey 0 6 33 PressState.released
      [112] 8 State.init).1 (Or.inl rfl)]
    rfl⟩

/-- C8: for every button event `buttonpress` logs the forwarded raw event
(`wlr_seat_pointer_notify_button`) first, and whatever else it logs comes after
it and is a call made by `focus` or by a binding's action; on a release the only
other change is `cursor_mode = CurNormal` (no binding is looked at), and on a
press the handler focuses the view under the pointer and then invokes the
entries of the button table that pass the test, in table order. -/
theorem buttonpress_forwards_first (env : Substrate) (buttons : List Button)
    (time button : Nat) (state : PressState) (mods : Nat) (s : State) :
    (∃ rest : List Effect,
      (buttonpress env buttons time button state mods s).out =
        s.out ++ Effect.pointer_notify_button time button state :: rest ∧
      ∀ e ∈ rest, e.fromAction = true) ∧
    (state = PressState.released →
      buttonpress env buttons time button state mods s =
        { s.emit (Effect.pointer_notify_button time button state) with
          cursor_mode := CurNormal }) ∧
    (state = PressState.pressed →
      buttonpress env buttons time button state mods s =
        (buttons.filter (Button.fires mods button)).foldl (Button.invoke env)
          (focus (s.emit (Effect.pointer_notify_button time button state))
            ((xytoview env s s.cursor_x s.cursor_y).map fun r => r.1)
            ((xytoview env s s.cursor_x s.cursor_y).map fun r => r.2.1))) := by
  have hrel : state = PressState.released →
      buttonpress env buttons time button state mods s =
        { s.emit (Effect.pointer_notify_button time button state) with
          cursor_mode := CurNormal } := by
    intro h
    unfold buttonpress
    simp only [if_pos h]
  have hpr : state = PressState.pressed →
      buttonpress env buttons time button state mods s =
        (buttons.filter (Button.fires mods button)).foldl (Button.invoke env)
          (focus (s.emit (Effect.pointer_notify_button time button state))
            ((xytoview env s s.cursor_x s.cursor_y).map fun r => r.1)
            ((xytoview env s s.cursor_x s.cursor_y).map fun r => r.2.1)) := by
    intro h
    have hne : ¬ state = PressState.released := by
      rw [h]
      exact fun h2 => PressState.noConfusion h2
    unfold buttonpress
    simp only [if_neg hne, button_loop]
    rfl
  refine ⟨?_, hrel, hpr⟩
  cases state with
  | released =>
    rw [hrel rfl]
    exact ⟨[], rfl, by simp⟩
  | pressed =>
    rw [hpr rfl]
    obtain ⟨extra, h1, h2⟩ :=
      appends_trans
        (focus_appends (s.emit (Effect.pointer_notify_button time button PressState.pressed))
          ((xytoview env s s.cursor_x s.cursor_y).map fun r => r.1)
          ((xytoview env s s.cursor_x s.cursor_y).map fun r => r.2.1))
        (button_invoke_loop_appends env (buttons.filter (Button.fires mods button)) _)
    refine ⟨extra, ?_, h2⟩
    rw [h1]
    simp [State.emit]

/-- C8 on the registry `[1, 2, 3]` with view 1 focused and the pointer over
view 3: a press with Alt held logs the forwarded event, then the focus change,
then the bound action; a release logs the forwarded event only. -/
theorem buttonpress_forwards_first_witness :
    (buttonpress hitThree quitButton 7 272 PressState.pressed 8 sampleABC).out =
      [Effect.pointer_notify_button 7 272 PressState.pressed,
       Effect.xdg_toplevel_set_activated 1 false,
       Effect.xdg_toplevel_set_activated 3 true,
       Effect.keyboard_notify_enter (surfaceOf 3),
       Effect.display_terminate] ∧
    (buttonpress hitThree quitButton 9 272 PressState.released 8 sampleABC).out =
      [Effect.pointer_notify_button 9 272 PressState.released] :=
  ⟨by
    rw [(buttonpress_forwards_first hitThree quitButton 7 272 PressState.pressed 8
      sampleABC).2.2 rfl]
    rfl,
   by
    rw [(buttonpress_forwards_first hitThree quitButton 9 272 PressState.released 8
      sampleABC).2.1 rfl]
    rfl⟩

/-! ## Interactive grabs -/

/-- The function `motionnotify` leaves the grab variables alone. -/
theorem motionnotify_sameGrab (env : Substrate) (s : State) (time : Nat) :
    SameGrab s (motionnotify env s time) := by
  unfold motionnotify
  split_ifs
  · unfold handlemove
    split <;> exact ⟨rfl, rfl, rfl, rfl, rfl, rfl, rfl⟩
  · unfold handleresize
    split <;> exact ⟨rfl, rfl, rfl, rfl, rfl, rfl, rfl⟩
  · split
    · exact ⟨rfl, rfl, rfl, rfl, rfl, rfl, rfl⟩
    · dsimp only
      split_ifs <;> exact ⟨rfl, rfl, rfl, rfl, rfl, rfl, rfl⟩

/-- A motion event leaves the grab variables alone. -/
theorem motion_sameGrab (cfg : Config) (s : State) (e : Event) (he : e.isMotion = true) :
    SameGrab s (handle cfg s e) := by
  cases e with
  | motion_relative env dx dy time => exact motionnotify_sameGrab env _ time
  | motion_absolute env lx ly time => exact motionnotify_sameGrab env _ time
  | create v tl => exact Bool.noConfusion he
  | map v => exact Bool.noConfusion he
  | unmap v => exact Bool.noConfusion he
  | destroy v => exact Bool.noConfusion he
  | button env time button state mods => exact Bool.noConfusion he
  | key env device time keycode state syms mods => exact Bool.noConfusion he
  | frame ok => exact Bool.noConfusion he

/-- Any number of motion events leaves the grab variables alone. -/
theorem motions_sameGrab (cfg : Config) (evs : List Event) (s : State)
    (hm : ∀ e ∈ evs, e.isMotion = true) : SameGrab s (evs.foldl (handle cfg) s) := by
  induction evs generalizing s with
  | nil => exact ⟨rfl, rfl, rfl, rfl, rfl, rfl, rfl⟩
  | cons e rest ih =>
    rw [List.foldl_cons]
    have h1 := motion_sameGrab cfg s e (hm e (List.mem_cons_self _ _))
    have h2 := ih (handle cfg s e) (fun e2 h => hm e2 (List.mem_cons_of_mem _ h))
    exact ⟨h2.1.trans h1.1, h2.2.1.trans h1.2.1, h2.2.2.1.trans h1.2.2.1,
      h2.2.2.2.1.trans h1.2.2.2.1, h2.2.2.2.2.1.trans h1.2.2.2.2.1,
      h2.2.2.2.2.2.1.trans h1.2.2.2.2.2.1, h2.2.2.2.2.2.2.trans h1.2.2.2.2.2.2⟩

/-- C9: pointer-motion events, however many, leave `cursor_mode` as it is (in
particular at `CurMove` or `CurResize`), and the next button-release event,
whatever its button code, sets it to `CurNormal`. -/
theorem release_ends_grab (cfg : Config) (s : State) (evs : List Event)
    (hm : ∀ e ∈ evs, e.isMotion = true) (env : Substrate) (buttons : List Button)
    (time button mods : Nat) :
    (evs.foldl (handle cfg) s).cursor_mode = s.cursor_mode ∧
    (buttonpress env buttons time button PressState.released mods
      (evs.foldl (handle cfg) s)).cursor_mode = CurNormal := by
  refine ⟨(motions_sameGrab cfg evs s hm).1, ?_⟩
  unfold buttonpress
  simp

/-- A motion event during a move grab puts the grabbed view at the cursor
position minus the anchor. -/
theorem motion_moves_grabbed (cfg : Config) (s : State) (v : View) (e : Event)
    (he : e.isMotion = true) (hmode : s.cursor_mode = CurMove)
    (hg : s.grabbed_view = some v) :
    (handle cfg s e).x v = (handle cfg s e).cursor_x - s.grab_x ∧
    (handle cfg s e).y v = (handle cfg s e).cursor_y - s.grab_y := by
  have key : ∀ (env : Substrate) (t : State) (time : Nat), t.cursor_mode = CurMove →
      t.grabbed_view = some v →
      (motionnotify env t time).x v = (motionnotify env t time).cursor_x - t.grab_x ∧
      (motionnotify env t time).y v = (motionnotify env t time).cursor_y - t.grab_y := by
    intro env t time h1 h2
    unfold motionnotify
    rw [if_pos h1]
    unfold handlemove
    rw [h2]
    simp
  cases e with
  | motion_relative env dx dy time => exact key env _ time hmode hg
  | motion_absolute env lx ly time => exact key env _ time hmode hg
  | create v tl => exact Bool.noConfusion he
  | map v => exact Bool.noConfusion he
  | unmap v => exact Bool.noConfusion he
  | destroy v => exact Bool.noConfusion he
  | button env time button state mods => exact Bool.noConfusion he
  | key env device time keycode state syms mods => exact Bool.noConfusion he
  | frame ok => exact Bool.noConfusion he

/-- C9 on a move grab of view 1: after two motion events the mode is still
`CurMove`, and a release of button 273 sets it to `CurNormal`. -/
theorem release_ends_grab_witness :
    (∀ e ∈ [Event.motion_absolute emptySubstrate 150 160 1,
        Event.motion_relative emptySubstrate 3 4 2], e.isMotion = true) ∧
    (moveresize emptySubstrate sampleMove 1 CurMove 0).cursor_mode = CurMove ∧
    ([Event.motion_absolute emptySubstrate 150 160 1,
        Event.motion_relative emptySubstrate 3 4 2].foldl (handle emptyConfig)
      (moveresize emptySubstrate sampleMove 1 CurMove 0)).cursor_mode = CurMove ∧
    (buttonpress emptySubstrate [] 3 273 PressState.released 0
      ([Event.motion_absolute emptySubstrate 150 160 1,
        Event.motion_relative emptySubstrate 3 4 2].foldl (handle emptyConfig)
      (moveresize emptySubstrate sampleMove 1 CurMove 0))).cursor_mode = CurNormal :=
  have hm : ∀ e ∈ [Event.motion_absolute emptySubstrate 150 160 1,
      Event.motion_relative emptySubstrate 3 4 2], e.isMotion = true := by
    intro e he
    simp only [List.mem_cons, List.mem_singleton, List.not_mem_nil, or_false] at he
    rcases he with h | h <;> subst h <;> rfl
  have h := release_ends_grab emptyConfig (moveresize emptySubstrate sampleMove 1 CurMove 0)
    _ hm emptySubstrate [] 3 273 0
  ⟨hm, rfl, h.1.trans rfl, h.2⟩

/-- C10: a move grab started by `moveresize` on the pointer-focused view `v`
records the anchor `cursor − position`; after any number of motion events, each
further motion event sets the position of `v` to the cursor position minus the
anchor, which for a motion to `(lx, ly)` is the position at grab start plus the
pointer's displacement since then, with no clamping. -/
theorem move_grab_tracks_pointer (cfg : Config) (env : Substrate) (s : State) (v : View)
    (hf : s.ptr_focus = some (surfaceOf v)) (evs : List Event)
    (hm : ∀ e ∈ evs, e.isMotion = true) (env2 : Substrate) (lx ly : Int) (time : Nat) :
    (moveresize env s v CurMove 0).cursor_mode = CurMove ∧
    (moveresize env s v CurMove 0).grabbed_view = some v ∧
    (moveresize env s v CurMove 0).grab_x = s.cursor_x - s.x v ∧
    (moveresize env s v CurMove 0).grab_y = s.cursor_y - s.y v ∧
    (∀ e : Event, e.isMotion = true →
      (handle cfg (evs.foldl (handle cfg) (moveresize env s v CurMove 0)) e).x v =
        (handle cfg (evs.foldl (handle cfg) (moveresize env s v CurMove 0)) e).cursor_x -
          (s.cursor_x - s.x v) ∧
      (handle cfg (evs.foldl (handle cfg) (moveresize env s v CurMove 0)) e).y v =
        (handle cfg (evs.foldl (handle cfg) (moveresize env s v CurMove 0)) e).cursor_y -
          (s.cursor_y - s.y v)) ∧
    (motionabsolute env2 (evs.foldl (handle cfg) (moveresize env s v CurMove 0))
      lx ly time).x v = s.x v + (lx - s.cursor_x) ∧
    (motionabsolute env2 (evs.foldl (handle cfg) (moveresize env s v CurMove 0))
      lx ly time).y v = s.y v + (ly - s.cursor_y) := by
  have hg : moveresize env s v CurMove 0 =
      { s with
        grabbed_view := some v
        cursor_mode := CurMove
        grab_x := s.cursor_x - s.x v
        grab_y := s.cursor_y - s.y v
        grab_width := (env.get_geometry v).width
        grab_height := (env.get_geometry v).height
        resize_edges := 0 } := by
    unfold moveresize
    simp [hf]
  have h1 : (moveresize env s v CurMove 0).cursor_mode = CurMove := by rw [hg]
  have h2 : (moveresize env s v CurMove 0).grabbed_view = some v := by rw [hg]
  have h3 : (moveresize env s v CurMove 0).grab_x = s.cursor_x - s.x v := by rw [hg]
  have h4 : (moveresize env s v CurMove 0).grab_y = s.cursor_y - s.y v := by rw [hg]
  have hsg := motions_sameGrab cfg evs (moveresize env s v CurMove 0) hm
  have hall : ∀ e : Event, e.isMotion = true →
      (handle cfg (evs.foldl (handle cfg) (moveresize env s v CurMove 0)) e).x v =
        (handle cfg (evs.foldl (handle cfg) (moveresize env s v CurMove 0)) e).cursor_x -
          (s.cursor_x - s.x v) ∧
      (handle cfg (evs.foldl (handle cfg) (moveresize env s v CurMove 0)) e).y v =
        (handle cfg (evs.foldl (handle cfg) (moveresize env s v CurMove 0)) e).cursor_y -
          (s.cursor_y - s.y v) := by
    intro e he
    have := motion_moves_grabbed cfg _ v e he (hsg.1.trans h1) (hsg.2.1.trans h2)
    rw [hsg.2.2.1, hsg.2.2.2.1, h3, h4] at this
    exact this
  have habs := hall (Event.motion_absolute env2 lx ly time) rfl
  have hcx : (motionabsolute env2 (evs.foldl (handle cfg) (moveresize env s v CurMove 0))
      lx ly time).cursor_x = lx := by
    unfold motionabsolute motionnotify
    rw [if_pos (hsg.1.trans h1)]
    unfold handlemove
    split <;> rfl
  have hcy : (motionabsolute env2 (evs.foldl (handle cfg) (moveresize env s v CurMove 0))
      lx ly time).cursor_y = ly := by
    unfold motionabsolute motionnotify
    rw [if_pos (hsg.1.trans h1)]
    unfold handlemove
    split <;> rfl
  refine ⟨h1, h2, h3, h4, hall, ?_, ?_⟩
  · have := habs.1
    simp only [handle] at this
    rw [this, hcx]
    ring
  · have := habs.2
    simp only [handle] at this
    rw [this, hcy]
    ring

/-- C10 on a view at (100, 100) grabbed with the pointer at (110, 115): the
anchor is (10, 15) and a motion to (150, 160) puts the view at (140, 145). -/
theorem move_grab_tracks_pointer_witness :
    sampleMove.ptr_focus = some (surfaceOf 1) ∧
    (∀ e ∈ ([] : List Event), e.isMotion = true) ∧
    (moveresize emptySubstrate sampleMove 1 CurMove 0).grab_x = 10 ∧
    (moveresize emptySubstrate sampleMove 1 CurMove 0).grab_y = 15 ∧
    (motionabsolute emptySubstrate (moveresize emptySubstrate sampleMove 1 CurMove 0)
      150 160 1).x 1 = 140 ∧
    (motionabsolute emptySubstrate (moveresize emptySubstrate sampleMove 1 CurMove 0)
      150 160 1).y 1 = 145 :=
  have hm : ∀ e ∈ ([] : List Event), e.isMotion = true := by
    intro e he
    cases he
  have h := move_grab_tracks_pointer emptyConfig emptySubstrate sampleMove 1 rfl [] hm
    emptySubstrate 150 160 1
  ⟨rfl, hm, h.2.2.1.trans (by decide), h.2.2.2.1.trans (by decide),
   h.2.2.2.2.2.1.trans (by decide), h.2.2.2.2.2.2.trans (by decide)⟩

/-! ## Reachability of the sample grabs -/

/-- A well-formed sequence of events leads from a reachable state to a reachable
state. -/
theorem reachable_foldl (cfg : Config) (evs : List Event) (s : State)
    (h : Reachable cfg s) (hok : Event.okAll cfg s evs) :
    Reachable cfg (evs.foldl (handle cfg) s) := by
  induction evs generalizing s with
  | nil => exact h
  | cons e rest ih => exact ih (handle cfg s e) (Reachable.step e h hok.1) hok.2

/-- Input events are well-formed in every state. -/
theorem okAll_of_isInput (cfg : Config) (evs : List Event) (s : State)
    (h : ∀ e ∈ evs, e.isInput = true) : Event.okAll cfg s evs := by
  induction evs generalizing s with
  | nil => trivial
  | cons e rest ih =>
    refine ⟨?_, ih _ (fun e2 h2 => h e2 (List.mem_cons_of_mem _ h2))⟩
    have he := h e (List.mem_cons_self _ _)
    cases e with
    | create v tl => exact Bool.noConfusion he
    | map v => exact Bool.noConfusion he
    | unmap v => exact Bool.noConfusion he
    | destroy v => exact Bool.noConfusion he
    | button env time button state mods => trivial
    | key env device time keycode state syms mods => trivial
    | motion_relative env dx dy time => trivial
    | motion_absolute env lx ly time => trivial
    | frame ok => trivial

/-- Creating and mapping view 1, followed by any input events, leads to a
reachable state. -/
theorem createMap_then_input_reachable (cfg : Config) (evs : List Event)
    (h : ∀ e ∈ evs, e.isInput = true) :
    Reachable cfg ((createMap ++ evs).foldl (handle cfg) State.init) := by
  rw [List.foldl_append]
  apply reachable_foldl cfg evs _ _ (okAll_of_isInput cfg evs _ h)
  apply reachable_foldl cfg createMap State.init Reachable.init
  refine ⟨?_, ?_, trivial⟩
  · show (1 : View) ∉ State.init.views
    decide
  · show (1 : View) ∈ (handle cfg State.init (Event.create 1 true)).views
    exact List.mem_cons_self _ _

/-! ## Resize requests -/

/-- The size request of `handleresize` for a grab on the bottom and right edges:
the captured size plus the cursor's distance from the anchor, with the view's
position written back as it was. -/
theorem handleresize_bottom_right (s : State) (v : View) (hg : s.grabbed_view = some v)
    (he : s.resize_edges = WLR_EDGE_BOTTOM ||| WLR_EDGE_RIGHT) :
    handleresize s =
      { s with
        x := Function.update s.x v (s.x v)
        y := Function.update s.y v (s.y v)
        out := s.out ++
          [Effect.xdg_toplevel_set_size v (s.grab_width + (s.cursor_x - s.grab_x))
            (s.grab_height + (s.cursor_y - s.grab_y))] } := by
  unfold handleresize
  rw [hg]
  have h1 : (WLR_EDGE_BOTTOM ||| WLR_EDGE_RIGHT) &&& WLR_EDGE_TOP = 0 := by decide
  have h2 : (WLR_EDGE_BOTTOM ||| WLR_EDGE_RIGHT) &&& WLR_EDGE_BOTTOM ≠ 0 := by decide
  have h3 : (WLR_EDGE_BOTTOM ||| WLR_EDGE_RIGHT) &&& WLR_EDGE_LEFT = 0 := by decide
  have h4 : (WLR_EDGE_BOTTOM ||| WLR_EDGE_RIGHT) &&& WLR_EDGE_RIGHT ≠ 0 := by decide
  simp [he, h1, h2, h3, h4, State.emit]

/-- C11 fails on the code: on a 200 x 100 view grabbed by `resizemouse` (edges
bottom and right, pointer warped to the corner (250, 150)), a motion to the
view's top-left corner (50, 50) requests the size (0, 0) and a motion to
(40, 30) requests (-10, -20); on a grab with edges top and left started at
(60, 55), a motion to (300, 200) requests (-40, -45).  The request (0, 0) is
also the last call of a reachable state: view 1 is created and mapped, the
pointer moves onto it, Alt + right button starts the grab and the pointer moves
to the view's corner (0, 0). -/
theorem handleresize_requests_below_one :
    (resizemouse boxSubstrate sampleResize).grab_width = 200 ∧
    (resizemouse boxSubstrate sampleResize).grab_height = 100 ∧
    (motionabsolute boxSubstrate (resizemouse boxSubstrate sampleResize) 50 50 1).out =
      [Effect.cursor_warp_closest 250 150, Effect.xdg_toplevel_set_size 1 0 0] ∧
    (motionabsolute boxSubstrate (resizemouse boxSubstrate sampleResize) 40 30 1).out =
      [Effect.cursor_warp_closest 250 150, Effect.xdg_toplevel_set_size 1 (-10) (-20)] ∧
    (motionabsolute boxSubstrate
      (moveresize boxSubstrate sampleResize 1 CurResize (WLR_EDGE_TOP ||| WLR_EDGE_LEFT))
      300 200 1).out = [Effect.xdg_toplevel_set_size 1 (-40) (-45)] ∧
    Reachable resizeConfig
      ((resizeGrab boxSubstrate ++ [Event.motion_absolute boxSubstrate 0 0 3]).foldl
        (handle resizeConfig) State.init) ∧
    ((resizeGrab boxSubstrate ++ [Event.motion_absolute boxSubstrate 0 0 3]).foldl
      (handle resizeConfig) State.init).out.getLast?
      = some (Effect.xdg_toplevel_set_size 1 0 0) := by
  refine ⟨by decide, by decide, by decide, by decide, by decide, ?_, by decide⟩
  unfold resizeGrab
  rw [List.append_assoc]
  apply createMap_then_input_reachable
  intro e he
  simp only [List.cons_append, List.nil_append, List.mem_cons, List.mem_singleton,
    List.not_mem_nil, or_false] at he
  rcases he with h | h | h <;> subst h <;> rfl

/-- C13: `moveresize` returns the state it was given (grab mode, target, anchor,
captured size and edges included) when the view's surface is not the
pointer-focused surface; when it is, the grab mode becomes the mode passed and
the target the view passed, and the anchor, the size and the edges are
captured. -/
theorem moveresize_guard (env : Substrate) (s : State) (v : View) (mode edges : Nat) :
    (s.ptr_focus ≠ some (surfaceOf v) → moveresize env s v mode edges = s) ∧
    (s.ptr_focus = some (surfaceOf v) →
      (moveresize env s v mode edges).cursor_mode = mode ∧
      (moveresize env s v mode edges).grabbed_view = some v ∧
      (moveresize env s v mode edges).grab_width = (env.get_geometry v).width ∧
      (moveresize env s v mode edges).grab_height = (env.get_geometry v).height ∧
      (moveresize env s v mode edges).resize_edges = edges) := by
  constructor
  · intro h
    unfold moveresize
    have h2 : some (surfaceOf v) ≠ s.ptr_focus := fun e => h e.symm
    simp [h2]
  · intro h
    unfold moveresize
    simp [h]

/-- C13 on view 1 at (50, 50): without pointer focus the request changes
nothing; with pointer focus the grab is on view 1 in the mode asked for. -/
theorem moveresize_guard_witness :
    sampleUnfocused.ptr_focus ≠ some (surfaceOf 1) ∧
    moveresize boxSubstrate sampleUnfocused 1 CurResize 5 = sampleUnfocused ∧
    sampleResize.ptr_focus = some (surfaceOf 1) ∧
    (moveresize boxSubstrate sampleResize 1 CurResize 5).cursor_mode = CurResize ∧
    (moveresize boxSubstrate sampleResize 1 CurResize 5).grabbed_view = some 1 :=
  have h1 : sampleUnfocused.ptr_focus ≠ some (surfaceOf 1) := by decide
  have h := (moveresize_guard boxSubstrate sampleResize 1 CurResize 5).2 rfl
  ⟨h1, (moveresize_guard boxSubstrate sampleUnfocused 1 CurResize 5).1 h1, rfl, h.1, h.2.1⟩

/-- The action `movemouse` changes nothing when the view under the pointer does
not own the pointer-focused surface. -/
theorem movemouse_rejected (env : Substrate) (s : State) (v : View)
    (r : Surface × Int × Int)
    (hhit : xytoview env s s.cursor_x s.cursor_y = some (v, r))
    (hf : s.ptr_focus ≠ some (surfaceOf v)) : movemouse env s = s := by
  unfold movemouse
  rw [hhit]
  exact (moveresize_guard env s v CurMove 0).1 hf

/-- What `resizemouse` does when the view under the pointer does not own the
pointer-focused surface: the pointer is warped and the warp is logged. -/
theorem resizemouse_rejected (env : Substrate) (s : State) (v : View)
    (r : Surface × Int × Int)
    (hhit : xytoview env s s.cursor_x s.cursor_y = some (v, r))
    (hf : s.ptr_focus ≠ some (surfaceOf v)) :
    resizemouse env s =
      { s with
        cursor_x :=
          (env.warp_closest (s.x v + (env.get_geometry v).x + (env.get_geometry v).width)
            (s.y v + (env.get_geometry v).y + (env.get_geometry v).height)).1
        cursor_y :=
          (env.warp_closest (s.x v + (env.get_geometry v).x + (env.get_geometry v).width)
            (s.y v + (env.get_geometry v).y + (env.get_geometry v).height)).2
        out := s.out ++
          [Effect.cursor_warp_closest
            (s.x v + (env.get_geometry v).x + (env.get_geometry v).width)
            (s.y v + (env.get_geometry v).y + (env.get_geometry v).height)] } := by
  unfold resizemouse
  rw [hhit]
  dsimp only
  refine Eq.trans ((moveresize_guard env _ v CurResize _).1 ?_) rfl
  exact hf

/-- C14 fails on the code: with view 1 under the pointer at (60, 55) and no
pointer-focused surface, `movemouse` changes nothing, but `resizemouse` moves
the pointer to (250, 150) and logs the warp before `moveresize` refuses the
grab; the grab mode, target and anchor are unchanged.  The same happens in a
reachable state: view 1 is created and mapped under the resting pointer at
(0, 0), which gives it no pointer focus, and Alt + right button then moves the
pointer to (200, 100) without starting a grab. -/
theorem resizemouse_rejected_moves_pointer :
    xytoview boxSubstrate sampleUnfocused sampleUnfocused.cursor_x sampleUnfocused.cursor_y
      = some (1, surfaceOf 1, 10, 5) ∧
    sampleUnfocused.ptr_focus = none ∧
    movemouse boxSubstrate sampleUnfocused = sampleUnfocused ∧
    sampleUnfocused.cursor_x = 60 ∧ sampleUnfocused.cursor_y = 55 ∧
    (resizemouse boxSubstrate sampleUnfocused).cursor_x = 250 ∧
    (resizemouse boxSubstrate sampleUnfocused).cursor_y = 150 ∧
    (resizemouse boxSubstrate sampleUnfocused).out = [Effect.cursor_warp_closest 250 150] ∧
    (resizemouse boxSubstrate sampleUnfocused).cursor_mode = CurNormal ∧
    (resizemouse boxSubstrate sampleUnfocused).grabbed_view = none ∧
    (resizemouse boxSubstrate sampleUnfocused).grab_x = 0 ∧
    (resizemouse boxSubstrate sampleUnfocused).grab_y = 0 ∧
    Reachable resizeConfig
      ((createMap ++ [Event.button boxSubstrate 2 273 PressState.pressed 8]).foldl
        (handle resizeConfig) State.init) ∧
    (createMap.foldl (handle resizeConfig) State.init).ptr_focus = none ∧
    ((createMap.foldl (handle resizeConfig) State.init).cursor_x,
      (createMap.foldl (handle resizeConfig) State.init).cursor_y) = (0, 0) ∧
    (((createMap ++ [Event.button boxSubstrate 2 273 PressState.pressed 8]).foldl
        (handle resizeConfig) State.init).cursor_x,
      ((createMap ++ [Event.button boxSubstrate 2 273 PressState.pressed 8]).foldl
        (handle resizeConfig) State.init).cursor_y) = (200, 100) ∧
    ((createMap ++ [Event.button boxSubstrate 2 273 PressState.pressed 8]).foldl
      (handle resizeConfig) State.init).cursor_mode = CurNormal := by
  refine ⟨by decide, rfl, ?_, rfl, rfl, by decide, by decide, by decide, by decide,
    by decide, by decide, by decide, ?_, by decide, by decide, by decide, by decide⟩
  · exact movemouse_rejected boxSubstrate sampleUnfocused 1 (surfaceOf 1, 10, 5) (by decide)
      (by decide)
  · apply createMap_then_input_reachable
    intro e he
    rw [List.mem_singleton] at he
    subst he
    rfl

/-! ## Hit test and render order -/

/-- C15 fails on the code: in the state reached by creating and mapping view 2
and then creating view 1, the registry is `[1, 2]` with view 1 unmapped; when
the surface adapter reports a hit on view 1, `xytoview` returns view 1, and a
button press there gives it keyboard focus, whereas the loop of `renderoutput`
tests `mapped` and skips it. -/
theorem xytoview_returns_unmapped :
    sampleUnmappedFront.views = [1, 2] ∧
    sampleUnmappedFront.mapped 1 = false ∧
    boxSubstrate.surface_at 1 5 5 = some (surfaceOf 1, 5, 5) ∧
    xytoview boxSubstrate sampleUnmappedFront 5 5 = some (1, surfaceOf 1, 5, 5) ∧
    (buttonpress boxSubstrate [] 1 272 PressState.pressed 0
      { sampleUnmappedFront with cursor_x := 5, cursor_y := 5 }).kbd_focus
      = some (surfaceOf 1) ∧
    (renderoutput sampleUnmappedFront true).out =
      sampleUnmappedFront.out ++ [Effect.render_surfaces 2] := by
  refine ⟨by decide, by decide, by decide, by decide, by decide, by decide⟩

/-- C16: when `xytoview` returns a view, the surface adapter reported a hit on
it at the point relative to the view's position, with the surface and local
coordinates returned, and reported no hit on any view that stands before it in
the registry; `xytoview` returns `NULL` exactly when the adapter reports no hit
on any view of the registry. -/
theorem xytoview_topmost (env : Substrate) (s : State) (lx ly : Int) :
    (∀ (v : View) (sf : Surface) (sx sy : Int),
      xytoview env s lx ly = some (v, sf, sx, sy) →
        env.surface_at v (lx - s.x v) (ly - s.y v) = some (sf, sx, sy) ∧
        ∃ pre post : List View, s.views = pre ++ v :: post ∧
          ∀ u ∈ pre, env.surface_at u (lx - s.x u) (ly - s.y u) = none) ∧
    (xytoview env s lx ly = none ↔
      ∀ u ∈ s.views, env.surface_at u (lx - s.x u) (ly - s.y u) = none) := by
  constructor
  · intro v sf sx sy h
    unfold xytoview at h
    obtain ⟨pre, a, post, hl, ha, hpre⟩ := List.findSome?_eq_some_iff.mp h
    unfold xytosurface at ha hpre
    dsimp only at ha hpre
    cases hq : env.surface_at a (lx - s.x a) (ly - s.y a) with
    | none =>
      rw [hq] at ha
      exact Option.noConfusion ha
    | some r =>
      rw [hq] at ha
      have hpair : (a, r) = (v, sf, sx, sy) := Option.some.inj ha
      have hav : a = v := congrArg Prod.fst hpair
      have hr : r = (sf, sx, sy) := congrArg Prod.snd hpair
      subst hav
      refine ⟨by rw [hq, hr], pre, post, hl, ?_⟩
      intro u hu
      have := hpre u hu
      cases hu2 : env.surface_at u (lx - s.x u) (ly - s.y u) with
      | none => rfl
      | some r2 =>
        rw [hu2] at this
        exact Option.noConfusion this
  · unfold xytoview
    rw [List.findSome?_eq_none_iff]
    constructor
    · intro h u hu
      have := h u hu
      unfold xytosurface at this
      dsimp only at this
      cases hu2 : env.surface_at u (lx - s.x u) (ly - s.y u) with
      | none => rfl
      | some r2 =>
        rw [hu2] at this
        exact Option.noConfusion this
    · intro h u hu
      unfold xytosurface
      dsimp only
      rw [h u hu]
      rfl

/-- C16 on the registry `[1, 2, 3]` with an adapter that reports a hit on
view 3 only: `xytoview` returns view 3 with the adapter's answer. -/
theorem xytoview_topmost_witness :
    xytoview hitThree sampleABC 7 9 = some (3, surfaceOf 3, 7, 9) ∧
    hitThree.surface_at 3 (7 - sampleABC.x 3) (9 - sampleABC.y 3)
      = some (surfaceOf 3, 7, 9) ∧
    (∃ pre post : List View, sampleABC.views = pre ++ 3 :: post ∧
      ∀ u ∈ pre, hitThree.surface_at u (7 - sampleABC.x u) (9 - sampleABC.y u) = none) :=
  have h : xytoview hitThree sampleABC 7 9 = some (3, surfaceOf 3, 7, 9) := by decide
  ⟨h, ((xytoview_topmost hitThree sampleABC 7 9).1 3 (surfaceOf 3) 7 9 h).1,
   ((xytoview_topmost hitThree sampleABC 7 9).1 3 (surfaceOf 3) 7 9 h).2⟩

/-- The loop of `renderoutput` over any list of views: it only logs one render
call per mapped view, in the order of the list. -/
theorem render_loop (l : List View) (s : State) :
    l.foldl
        (fun acc view =>
          if !acc.mapped view then acc else acc.emit (Effect.render_surfaces view))
        s =
      { s with
        out := s.out ++ (l.filter fun v => s.mapped v).map Effect.render_surfaces } := by
  induction l generalizing s with
  | nil => simp
  | cons v rest ih =>
    rw [List.foldl_cons]
    by_cases hm : s.mapped v = true
    · have h1 : (if !s.mapped v then s else s.emit (Effect.render_surfaces v)) =
          s.emit (Effect.render_surfaces v) := by
        simp [hm]
      show List.foldl _ (if !s.mapped v then s else s.emit (Effect.render_surfaces v)) rest = _
      rw [h1, ih]
      simp [List.filter_cons, hm, State.emit]
    · have h1 : (if !s.mapped v then s else s.emit (Effect.render_surfaces v)) = s := by
        simp [hm]
      show List.foldl _ (if !s.mapped v then s else s.emit (Effect.render_surfaces v)) rest = _
      rw [h1, ih]
      simp [List.filter_cons, hm]

/-- C17: when `wlr_output_attach_render` succeeds, `renderoutput` hands to the
render callback the mapped views of the registry in reversed registry order and
changes nothing else (when it fails nothing is rendered): a view is rendered
exactly when it is a mapped registry view, once in a duplicate-free registry,
and a mapped front view is rendered last. -/
theorem renderoutput_back_to_front (s : State) :
    renderoutput s true =
      { s with
        out := s.out ++
          (s.views.reverse.filter fun v => s.mapped v).map Effect.render_surfaces } ∧
    renderoutput s false = s ∧
    (∀ v : View, v ∈ (s.views.reverse.filter fun v => s.mapped v) ↔
      (v ∈ s.views ∧ s.mapped v = true)) ∧
    (s.views.Nodup → ∀ v : View, v ∈ s.views → s.mapped v = true →
      (s.views.reverse.filter fun v => s.mapped v).count v = 1) ∧
    (∀ v : View, s.views.head? = some v → s.mapped v = true →
      (s.views.reverse.filter fun v => s.mapped v).getLast? = some v) := by
  refine ⟨?_, rfl, ?_, ?_, ?_⟩
  · unfold renderoutput
    simp only [Bool.not_true, Bool.false_eq_true, if_false]
    exact render_loop s.views.reverse s
  · intro v
    simp [List.mem_filter]
  · intro hnd v hv hm
    apply List.count_eq_one_of_mem
    · exact (List.nodup_reverse.mpr hnd).filter _
    · simp [List.mem_filter, hv, hm]
  · intro v hh hm
    cases hl : s.views with
    | nil =>
      rw [hl] at hh
      exact Option.noConfusion hh
    | cons a rest =>
      rw [hl] at hh
      have hav : a = v := Option.some.inj hh
      subst hav
      simp [List.filter_append, hm]

/-- C17 on the registry `[1, 2, 3]` with every view mapped: the views are
rendered in the order 3, 2, 1, each once, the front view last. -/
theorem renderoutput_back_to_front_witness :
    sampleABC.views.Nodup ∧ sampleABC.views.head? = some 1 ∧ sampleABC.mapped 1 = true ∧
    (renderoutput sampleABC true).out =
      [Effect.render_surfaces 3, Effect.render_surfaces 2, Effect.render_surfaces 1] ∧
    (sampleABC.views.reverse.filter fun v => sampleABC.mapped v).count 1 = 1 ∧
    (sampleABC.views.reverse.filter fun v => sampleABC.mapped v).getLast? = some 1 :=
  have h := renderoutput_back_to_front sampleABC
  have hnd : sampleABC.views.Nodup := by decide
  ⟨hnd, rfl, rfl, by rw [h.1]; decide, h.2.2.2.1 hnd 1 (by decide) rfl,
   h.2.2.2.2 1 rfl rfl⟩

/-! ## The resize action -/

/-- What `resizemouse` does when the view under the pointer owns the
pointer-focused surface. -/
theorem resizemouse_eq (env : Substrate) (s : State) (v : View) (r : Surface × Int × Int)
    (hhit : xytoview env s s.cursor_x s.cursor_y = some (v, r))
    (hf : s.ptr_focus = some (surfaceOf v)) :
    resizemouse env s =
      { s with
        cursor_x :=
          (env.warp_closest (s.x v + (env.get_geometry v).x + (env.get_geometry v).width)
            (s.y v + (env.get_geometry v).y + (env.get_geometry v).height)).1
        cursor_y :=
          (env.warp_closest (s.x v + (env.get_geometry v).x + (env.get_geometry v).width)
            (s.y v + (env.get_geometry v).y + (env.get_geometry v).height)).2
        out := s.out ++
          [Effect.cursor_warp_closest
            (s.x v + (env.get_geometry v).x + (env.get_geometry v).width)
            (s.y v + (env.get_geometry v).y + (env.get_geometry v).height)]
        grabbed_view := some v
        cursor_mode := CurResize
        grab_x :=
          (env.warp_closest (s.x v + (env.get_geometry v).x + (env.get_geometry v).width)
            (s.y v + (env.get_geometry v).y + (env.get_geometry v).height)).1 +
            (env.get_geometry v).x
        grab_y :=
          (env.warp_closest (s.x v + (env.get_geometry v).x + (env.get_geometry v).width)
            (s.y v + (env.get_geometry v).y + (env.get_geometry v).height)).2 +
            (env.get_geometry v).y
        grab_width := (env.get_geometry v).width
        grab_height := (env.get_geometry v).height
        resize_edges := WLR_EDGE_BOTTOM ||| WLR_EDGE_RIGHT } := by
  unfold resizemouse
  rw [hhit]
  dsimp only
  unfold moveresize
  have hne : CurResize ≠ CurMove := by decide
  simp [State.emit, hf, hne]

/-- C18 fails as stated: with the pointer at (60, 55), in the top-left quarter
of view 1 (position (50, 50), size 200 x 100), `resizemouse` starts a resize
grab whose edges are bottom and right; neither the top nor the left edge is
active. -/
theorem resizemouse_ignores_pointer_quarter :
    sampleResize.x 1 ≤ sampleResize.cursor_x ∧
    2 * (sampleResize.cursor_x - sampleResize.x 1) < (boxSubstrate.get_geometry 1).width ∧
    sampleResize.y 1 ≤ sampleResize.cursor_y ∧
    2 * (sampleResize.cursor_y - sampleResize.y 1) < (boxSubstrate.get_geometry 1).height ∧
    (resizemouse boxSubstrate sampleResize).cursor_mode = CurResize ∧
    (resizemouse boxSubstrate sampleResize).resize_edges
      = WLR_EDGE_BOTTOM ||| WLR_EDGE_RIGHT ∧
    (resizemouse boxSubstrate sampleResize).resize_edges &&& WLR_EDGE_TOP = 0 ∧
    (resizemouse boxSubstrate sampleResize).resize_edges &&& WLR_EDGE_LEFT = 0 ∧
    (resizemouse boxSubstrate sampleResize).resize_edges
      ≠ WLR_EDGE_TOP ||| WLR_EDGE_LEFT := by
  refine ⟨by decide, by decide, by decide, by decide, by decide, by decide, by decide,
    by decide, by decide⟩

/-- C18 as amended: when the view `v` under the pointer owns the pointer-focused
surface, `resizemouse` starts a resize grab on `v` whose active edges are bottom
and right wherever the pointer was, after it has warped the pointer to the
layout point closest to the bottom-right corner of the view's geometry; the
anchor is computed from the warped pointer position. -/
theorem resizemouse_bottom_right_after_warp (env : Substrate) (s : State) (v : View)
    (r : Surface × Int × Int)
    (hhit : xytoview env s s.cursor_x s.cursor_y = some (v, r))
    (hf : s.ptr_focus = some (surfaceOf v)) :
    (resizemouse env s).cursor_mode = CurResize ∧
    (resizemouse env s).grabbed_view = some v ∧
    (resizemouse env s).resize_edges = WLR_EDGE_BOTTOM ||| WLR_EDGE_RIGHT ∧
    ((resizemouse env s).cursor_x, (resizemouse env s).cursor_y) =
      env.warp_closest (s.x v + (env.get_geometry v).x + (env.get_geometry v).width)
        (s.y v + (env.get_geometry v).y + (env.get_geometry v).height) ∧
    (resizemouse env s).grab_x = (resizemouse env s).cursor_x + (env.get_geometry v).x ∧
    (resizemouse env s).grab_y = (resizemouse env s).cursor_y + (env.get_geometry v).y ∧
    (resizemouse env s).grab_width = (env.get_geometry v).width ∧
    (resizemouse env s).grab_height = (env.get_geometry v).height ∧
    (resizemouse env s).out = s.out ++
      [Effect.cursor_warp_closest
        (s.x v + (env.get_geometry v).x + (env.get_geometry v).width)
        (s.y v + (env.get_geometry v).y + (env.get_geometry v).height)] := by
  rw [resizemouse_eq env s v r hhit hf]
  exact ⟨rfl, rfl, rfl, rfl, rfl, rfl, rfl, rfl, rfl⟩

/-- C18 as amended, on view 1 at (50, 50) with size 200 x 100 and the pointer
at (60, 55): the pointer is warped to (250, 150), the anchor is (250, 150) and
the edges are bottom and right. -/
theorem resizemouse_bottom_right_after_warp_witness :
    xytoview boxSubstrate sampleResize sampleResize.cursor_x sampleResize.cursor_y
      = some (1, surfaceOf 1, 10, 5) ∧
    sampleResize.ptr_focus = some (surfaceOf 1) ∧
    (resizemouse boxSubstrate sampleResize).resize_edges = 10 ∧
    ((resizemouse boxSubstrate sampleResize).cursor_x,
      (resizemouse boxSubstrate sampleResize).cursor_y) = (250, 150) ∧
    (resizemouse boxSubstrate sampleResize).grab_x = 250 ∧
    (resizemouse boxSubstrate sampleResize).grab_y = 150 :=
  have hhit : xytoview boxSubstrate sampleResize sampleResize.cursor_x sampleResize.cursor_y
      = some (1, surfaceOf 1, 10, 5) := by decide
  have h := resizemouse_bottom_right_after_warp boxSubstrate sampleResize 1 _ hhit rfl
  ⟨hhit, rfl, h.2.2.1.trans (by decide), h.2.2.2.1.trans (by decide), by decide, by decide⟩

/-! ## Destroyed views and the grab target -/

/-- The handler `destroynotify` leaves the grab variables alone. -/
theorem destroynotify_sameGrab (s : State) (v : View) : SameGrab s (destroynotify s v) :=
  ⟨rfl, rfl, rfl, rfl, rfl, rfl, rfl⟩

/-- After `destroynotify` the view is not in a duplicate-free registry. -/
theorem destroynotify_not_mem (s : State) (v : View) (h : s.views.Nodup) :
    v ∉ (destroynotify s v).views := by
  intro hm
  exact (h.mem_erase_iff.mp hm).1 rfl

/-- C19 fails on the code: view 1 is created and mapped, the pointer moves onto
it, Alt + left button starts a move grab on it, and it is destroyed while the
button is held.  In the state reached, view 1 is not in the registry, but the
grab mode is still `CurMove` and the grab target is still view 1, and the next
motion event writes the position of the destroyed view. -/
theorem destroyed_view_stays_grabbed :
    Reachable moveConfig (grabThenDestroy.foldl (handle moveConfig) State.init) ∧
    (grabThenDestroy.foldl (handle moveConfig) State.init).views = [] ∧
    (grabThenDestroy.foldl (handle moveConfig) State.init).cursor_mode = CurMove ∧
    (grabThenDestroy.foldl (handle moveConfig) State.init).grabbed_view = some 1 ∧
    (grabThenDestroy.foldl (handle moveConfig) State.init).x 1 = 0 ∧
    (handle moveConfig (grabThenDestroy.foldl (handle moveConfig) State.init)
      (Event.motion_absolute boxSubstrate 30 40 3)).x 1 = 25 ∧
    (handle moveConfig (grabThenDestroy.foldl (handle moveConfig) State.init)
      (Event.motion_absolute boxSubstrate 30 40 3)).y 1 = 35 := by
  refine ⟨?_, by decide, by decide, by decide, by decide, by decide, by decide⟩
  apply reachable_foldl moveConfig grabThenDestroy State.init Reachable.init
  refine ⟨?_, ?_, trivial, trivial, ?_, trivial⟩
  · show (1 : View) ∉ State.init.views
    decide
  · show (1 : View) ∈ (handle moveConfig State.init (Event.create 1 true)).views
    decide
  · show (1 : View) ∈
      ([Event.create 1 true, Event.map 1, Event.motion_absolute boxSubstrate 5 5 1,
        Event.button boxSubstrate 2 272 PressState.pressed 8].foldl (handle moveConfig)
        State.init).views
    decide

/-! ## The resize anchor -/

/-- A motion event right after `resizemouse` started a grab on view `v`: the
position of `v` is kept, and the size requested is the captured size plus the
pointer's displacement since the warp minus the offset of the geometry box. -/
theorem resize_tick_after_resizemouse (env : Substrate) (s : State) (v : View)
    (r : Surface × Int × Int)
    (hhit : xytoview env s s.cursor_x s.cursor_y = some (v, r))
    (hf : s.ptr_focus = some (surfaceOf v)) (env2 : Substrate) (lx ly : Int) (time : Nat) :
    (motionabsolute env2 (resizemouse env s) lx ly time).x v = s.x v ∧
    (motionabsolute env2 (resizemouse env s) lx ly time).y v = s.y v ∧
    (motionabsolute env2 (resizemouse env s) lx ly time).out =
      (resizemouse env s).out ++
        [Effect.xdg_toplevel_set_size v
          ((env.get_geometry v).width + (lx - (resizemouse env s).cursor_x) -
            (env.get_geometry v).x)
          ((env.get_geometry v).height + (ly - (resizemouse env s).cursor_y) -
            (env.get_geometry v).y)] := by
  have hmode : (resizemouse env s).cursor_mode = CurResize := by
    rw [resizemouse_eq env s v r hhit hf]
  have hstep : motionabsolute env2 (resizemouse env s) lx ly time =
      handleresize { resizemouse env s with cursor_x := lx, cursor_y := ly } := by
    unfold motionabsolute motionnotify
    have h1 : ¬ CurResize = CurMove := by decide
    simp only [hmode, if_neg h1, if_true]
  rw [hstep, handleresize_bottom_right _ v (by rw [resizemouse_eq env s v r hhit hf])
    (by rw [resizemouse_eq env s v r hhit hf])]
  rw [resizemouse_eq env s v r hhit hf]
  refine ⟨by simp, by simp, ?_⟩
  simp only [List.append_cancel_left_eq, List.cons.injEq, Effect.xdg_toplevel_set_size.injEq,
    true_and, and_true]
  constructor <;> ring

/-- C20 fails on the code: view 1 at (50, 50) reports the geometry box
(10, 10, 200, 100); `resizemouse` warps the pointer to (260, 160) and captures
the size (200, 100), and a motion event that leaves the pointer at (260, 160)
requests (190, 90), the captured size minus the geometry offset; a displacement
of (20, 15) requests (210, 105).  The position stays (50, 50), and with a
geometry box at offset (0, 0) the zero-displacement request is (200, 100).  The
request (190, 90) at zero displacement is also the last call of a reachable
state: view 1 is created and mapped, the pointer moves onto it, Alt + right
button starts the grab (pointer warped to (210, 110)) and a motion event leaves
the pointer there. -/
theorem resize_request_shifted_by_geometry_offset :
    ((resizemouse offsetSubstrate sampleResize).cursor_x,
      (resizemouse offsetSubstrate sampleResize).cursor_y) = (260, 160) ∧
    ((resizemouse offsetSubstrate sampleResize).grab_width,
      (resizemouse offsetSubstrate sampleResize).grab_height) = (200, 100) ∧
    (motionabsolute offsetSubstrate (resizemouse offsetSubstrate sampleResize) 260 160 1).out
      = [Effect.cursor_warp_closest 260 160, Effect.xdg_toplevel_set_size 1 190 90] ∧
    (motionabsolute offsetSubstrate (resizemouse offsetSubstrate sampleResize) 280 175 1).out
      = [Effect.cursor_warp_closest 260 160, Effect.xdg_toplevel_set_size 1 210 105] ∧
    (motionabsolute offsetSubstrate (resizemouse offsetSubstrate sampleResize) 280 175 1).x 1
      = 50 ∧
    (motionabsolute offsetSubstrate (resizemouse offsetSubstrate sampleResize) 280 175 1).y 1
      = 50 ∧
    (motionabsolute boxSubstrate (resizemouse boxSubstrate sampleResize) 250 150 1).out
      = [Effect.cursor_warp_closest 250 150, Effect.xdg_toplevel_set_size 1 200 100] ∧
    Reachable resizeConfig
      ((resizeGrab offsetSubstrate ++ [Event.motion_absolute offsetSubstrate 210 110 3]).foldl
        (handle resizeConfig) State.init) ∧
    ((resizeGrab offsetSubstrate).foldl (handle resizeConfig) State.init).cursor_x = 210 ∧
    ((resizeGrab offsetSubstrate).foldl (handle resizeConfig) State.init).cursor_y = 110 ∧
    ((resizeGrab offsetSubstrate ++ [Event.motion_absolute offsetSubstrate 210 110 3]).foldl
      (handle resizeConfig) State.init).out.getLast?
      = some (Effect.xdg_toplevel_set_size 1 190 90) := by
  refine ⟨by decide, by decide, by decide, by decide, by decide, by decide, by decide, ?_,
    by decide, by decide, by decide⟩
  unfold resizeGrab
  rw [List.append_assoc]
  apply createMap_then_input_reachable
  intro e he
  simp only [List.cons_append, List.nil_append, List.mem_cons, List.mem_singleton,
    List.not_mem_nil, or_false] at he
  rcases he with h | h | h <;> subst h <;> rfl

/-! ## Order of the calls of `focus` -/

/-- Flags with at most the toplevel `p` set have at most one set. -/
theorem atMostOne_of_only (act : View → Bool) (p : View)
    (h : ∀ w : View, act w = true → w = p) : AtMostOneActivated act := by
  intro a b ha hb
  rw [h a ha, h b hb]

/-- C21: when `focus` changes focus while the surface of a view `p` holds
keyboard focus, in a state in which only the keyboard-focused toplevel may be
activated, the calls it makes are, in this order, the deactivation of `p`, the
activation of `v` and the keyboard enter for the surface of `v`; after each
prefix of these calls at most one toplevel is activated, and after all of them
the flags are those of the state `focus` returns. -/
theorem focus_deactivates_before_activating (s : State) (v p : View)
    (surface : Option Surface) (hk : s.kbd_focus = some (surfaceOf p))
    (hne : s.kbd_focus ≠ surface) (hact : ActivatedOnlyFocused s) :
    (focus s (some v) surface).out =
      s.out ++ [Effect.xdg_toplevel_set_activated p false,
        Effect.xdg_toplevel_set_activated v true,
        Effect.keyboard_notify_enter (surfaceOf v)] ∧
    (∀ n : Nat, AtMostOneActivated
      (replayActivated s.activated
        ([Effect.xdg_toplevel_set_activated p false,
          Effect.xdg_toplevel_set_activated v true,
          Effect.keyboard_notify_enter (surfaceOf v)].take n))) ∧
    replayActivated s.activated
      [Effect.xdg_toplevel_set_activated p false,
        Effect.xdg_toplevel_set_activated v true,
        Effect.keyboard_notify_enter (surfaceOf v)] =
      (focus s (some v) surface).activated := by
  have honly : ∀ w : View, s.activated w = true → w = p := by
    intro w hw
    have := hact w hw
    rw [hk] at this
    exact (Option.some.inj this).symm
  have h0 : AtMostOneActivated s.activated := atMostOne_of_only _ p honly
  have h1 : AtMostOneActivated (Function.update s.activated p false) := by
    intro a b ha hb
    exfalso
    by_cases hap : a = p
    · rw [hap] at ha
      simp at ha
    · rw [Function.update_noteq hap] at ha
      exact hap (honly a ha)
  have h2 : AtMostOneActivated
      (Function.update (Function.update s.activated p false) v true) := by
    apply atMostOne_of_only _ v
    intro w hw
    by_contra hwv
    rw [Function.update_noteq hwv] at hw
    by_cases hwp : w = p
    · rw [hwp] at hw
      simp at hw
    · rw [Function.update_noteq hwp] at hw
      exact hwp (honly w hw)
  refine ⟨?_, ?_, ?_⟩
  · rw [focus_eq s v surface hne, hk]
    rfl
  · intro n
    match n with
    | 0 => exact h0
    | 1 => exact h1
    | 2 => exact h2
    | (k + 3) =>
      simp only [List.take_succ_cons, List.take_nil]
      exact h2
  · rw [focus_eq s v surface hne, hk]
    rfl

/-- C21 on the registry `[1, 2, 3]` with view 1 focused: `focus` of view 3
deactivates view 1, then activates view 3, then sends the keyboard enter. -/
theorem focus_deactivates_before_activating_witness :
    sampleABC.kbd_focus = some (surfaceOf 1) ∧
    sampleABC.kbd_focus ≠ some (surfaceOf 3) ∧
    ActivatedOnlyFocused sampleABC ∧
    (focus sampleABC (some 3) (some (surfaceOf 3))).out =
      [Effect.xdg_toplevel_set_activated 1 false,
        Effect.xdg_toplevel_set_activated 3 true,
        Effect.keyboard_notify_enter (surfaceOf 3)] ∧
    AtMostOneActivated
      (replayActivated sampleABC.activated
        ([Effect.xdg_toplevel_set_activated 1 false,
          Effect.xdg_toplevel_set_activated 3 true,
          Effect.keyboard_notify_enter (surfaceOf 3)].take 1)) :=
  have h2 : sampleABC.kbd_focus ≠ some (surfaceOf 3) := by decide
  have h3 : ActivatedOnlyFocused sampleABC := by
    intro w hw
    have : w = 1 := by simpa [sampleABC] using hw
    subst this
    rfl
  have h := focus_deactivates_before_activating sampleABC 3 1 (some (surfaceOf 3)) rfl h2 h3
  ⟨rfl, h2, h3, h.1, h.2.1 1⟩

/-! ## Motion during a grab -/

/-- What `motionnotify` does during a move or resize grab on view `v`: it writes
the position of `v` and logs at most a size request for `v`, none in a move. -/
theorem motionnotify_grab_eq (env : Substrate) (s : State) (time : Nat) (v : View)
    (hg : s.grabbed_view = some v)
    (hm : s.cursor_mode = CurMove ∨ s.cursor_mode = CurResize) :
    ∃ (nx ny : Int) (extra : List Effect),
      motionnotify env s time =
        { s with
          x := Function.update s.x v nx
          y := Function.update s.y v ny
          out := s.out ++ extra } ∧
      (∀ e ∈ extra, ∃ w h : Int, e = Effect.xdg_toplevel_set_size v w h) ∧
      (s.cursor_mode = CurMove → extra = []) := by
  rcases hm with hm | hm
  · refine ⟨s.cursor_x - s.grab_x, s.cursor_y - s.grab_y, [], ?_, by simp, fun _ => rfl⟩
    unfold motionnotify
    rw [if_pos hm]
    unfold handlemove
    rw [hg]
    simp
  · have hne : ¬ s.cursor_mode = CurMove := by
      rw [hm]
      decide
    unfold motionnotify
    rw [if_neg hne, if_pos hm]
    unfold handleresize
    rw [hg]
    refine ⟨_, _, [_], rfl, ?_, fun h => absurd h hne⟩
    intro e he
    rw [List.mem_singleton] at he
    exact ⟨_, _, he⟩

/-- C22: during a move or resize grab on view `v`, `motionnotify` changes
nothing but the position of `v` and the log, to which it appends only size
requests for `v` (none in a move): the registry, the grab mode, target and
anchor, the seat's pointer focus and the position of every other view are
unchanged, and no pointer enter, pointer motion or clear-focus call is made. -/
theorem grab_motion_consumed (env : Substrate) (s : State) (time : Nat) (v : View)
    (hg : s.grabbed_view = some v)
    (hm : s.cursor_mode = CurMove ∨ s.cursor_mode = CurResize) :
    (∃ (nx ny : Int) (extra : List Effect),
      motionnotify env s time =
        { s with
          x := Function.update s.x v nx
          y := Function.update s.y v ny
          out := s.out ++ extra } ∧
      (∀ e ∈ extra, ∃ w h : Int, e = Effect.xdg_toplevel_set_size v w h) ∧
      (s.cursor_mode = CurMove → extra = [])) ∧
    (motionnotify env s time).views = s.views ∧
    SameGrab s (motionnotify env s time) ∧
    (motionnotify env s time).ptr_focus = s.ptr_focus ∧
    (∀ w : View, w ≠ v →
      (motionnotify env s time).x w = s.x w ∧ (motionnotify env s time).y w = s.y w) ∧
    Appends (fun e => e.isPointerNotify = false) s (motionnotify env s time) := by
  obtain ⟨nx, ny, extra, heq, hextra, hmove⟩ := motionnotify_grab_eq env s time v hg hm
  refine ⟨⟨nx, ny, extra, heq, hextra, hmove⟩, ?_, ?_, ?_, ?_, ?_⟩
  · rw [heq]
  · rw [heq]
    exact ⟨rfl, rfl, rfl, rfl, rfl, rfl, rfl⟩
  · rw [heq]
  · intro w hw
    rw [heq]
    exact ⟨Function.update_noteq hw _ _, Function.update_noteq hw _ _⟩
  · refine ⟨extra, by rw [heq], ?_⟩
    intro e he
    obtain ⟨w, h, hwh⟩ := hextra e he
    rw [hwh]
    rfl

/-- C22 on a move grab of view 1 with anchor (10, 15) and the pointer at
(150, 160): the motion puts view 1 at (140, 145), leaves view 2 at (100, 100)
and the registry `[1, 2]`, and logs nothing. -/
theorem grab_motion_consumed_witness :
    sampleMoving.grabbed_view = some 1 ∧
    (sampleMoving.cursor_mode = CurMove ∨ sampleMoving.cursor_mode = CurResize) ∧
    (motionnotify emptySubstrate sampleMoving 1).views = [1, 2] ∧
    (motionnotify emptySubstrate sampleMoving 1).x 2 = 100 ∧
    (motionnotify emptySubstrate sampleMoving 1).y 2 = 100 ∧
    (motionnotify emptySubstrate sampleMoving 1).x 1 = 140 ∧
    (motionnotify emptySubstrate sampleMoving 1).y 1 = 145 ∧
    (motionnotify emptySubstrate sampleMoving 1).out = [] :=
  have h := grab_motion_consumed emptySubstrate sampleMoving 1 1 rfl (Or.inl rfl)
  ⟨rfl, Or.inl rfl, h.2.1, (h.2.2.2.2.1 2 (by decide)).1, (h.2.2.2.2.1 2 (by decide)).2,
   by decide, by decide, by decide⟩

/-! ## Click to focus -/

/-- Every action other than `focusnext` leaves the registry and the focus state
alone. -/
theorem Func.call_sameCore (fn : Func) (env : Substrate) (arg : Arg) (s : State)
    (h : fn ≠ Func.focusnext) : SameCore s (fn.call env arg s) := by
  cases fn with
  | focusnext => exact absurd rfl h
  | movemouse => exact movemouse_sameCore env s
  | quit => exact emit_sameCore s _
  | resizemouse => exact resizemouse_sameCore env s
  | spawn =>
    show SameCore s (Dwl.spawn s arg)
    unfold Dwl.spawn
    split <;> exact emit_sameCore s _

/-- Invoking button entries none of which is bound to `focusnext` leaves the
registry and the focus state alone. -/
theorem button_invoke_loop_sameCore (env : Substrate) (l : List Button)
    (h : ∀ b ∈ l, b.func ≠ some Func.focusnext) (s : State) :
    SameCore s (l.foldl (Button.invoke env) s) := by
  induction l generalizing s with
  | nil => exact ⟨rfl, rfl, rfl, rfl⟩
  | cons b rest ih =>
    rw [List.foldl_cons]
    refine sameCore_trans ?_ (ih (fun b2 h2 => h b2 (List.mem_cons_of_mem _ h2)) _)
    unfold Button.invoke
    cases hf : b.func with
    | none => exact ⟨rfl, rfl, rfl, rfl⟩
    | some fn =>
      apply Func.call_sameCore
      intro hfn
      apply h b (List.mem_cons_self _ _)
      rw [hf, hfn]

/-- Handler `buttonpress` on a press: the forwarded event, then `focus` on what
the hit test found, then the entries that pass the test. -/
theorem buttonpress_pressed_eq (env : Substrate) (buttons : List Button)
    (time button mods : Nat) (s : State) :
    buttonpress env buttons time button PressState.pressed mods s =
      (buttons.filter (Button.fires mods button)).foldl (Button.invoke env)
        (focus (s.emit (Effect.pointer_notify_button time button PressState.pressed))
          ((xytoview env s s.cursor_x s.cursor_y).map fun r => r.1)
          ((xytoview env s s.cursor_x s.cursor_y).map fun r => r.2.1)) := by
  have hne : ¬ PressState.pressed = PressState.released := fun h => PressState.noConfusion h
  unfold buttonpress
  simp only [if_neg hne, button_loop]
  rfl

/-- C23: on a press `buttonpress` runs `focus` on the view and surface the hit
test found and only then the button bindings.  When the surface found does not
hold keyboard focus (for a hit on the view's own surface: when the view is not
focused), the bindings start in a state in which that view is the front element
of the registry, activated, and holds keyboard focus, and this is still so when
`buttonpress` returns unless a binding that fired is `focusnext`.  When the hit
test finds no view the focus step returns its state unchanged.  On a release
keyboard focus and the registry are as before. -/
theorem click_to_focus (env : Substrate) (buttons : List Button)
    (time button mods : Nat) (s : State) :
    buttonpress env buttons time button PressState.pressed mods s =
      (buttons.filter (Button.fires mods button)).foldl (Button.invoke env)
        (focus (s.emit (Effect.pointer_notify_button time button PressState.pressed))
          ((xytoview env s s.cursor_x s.cursor_y).map fun r => r.1)
          ((xytoview env s s.cursor_x s.cursor_y).map fun r => r.2.1)) ∧
    (∀ (v : View) (sf : Surface) (sx sy : Int),
      xytoview env s s.cursor_x s.cursor_y = some (v, sf, sx, sy) →
      s.kbd_focus ≠ some sf →
        (focus (s.emit (Effect.pointer_notify_button time button PressState.pressed))
          (some v) (some sf)).views = v :: s.views.erase v ∧
        (focus (s.emit (Effect.pointer_notify_button time button PressState.pressed))
          (some v) (some sf)).views.head? = some v ∧
        (focus (s.emit (Effect.pointer_notify_button time button PressState.pressed))
          (some v) (some sf)).kbd_focus = some (surfaceOf v) ∧
        (focus (s.emit (Effect.pointer_notify_button time button PressState.pressed))
          (some v) (some sf)).activated v = true ∧
        ((∀ b ∈ buttons, b.fires mods button = true → b.func ≠ some Func.focusnext) →
          (buttonpress env buttons time button PressState.pressed mods s).views
            = v :: s.views.erase v ∧
          (buttonpress env buttons time button PressState.pressed mods s).kbd_focus
            = some (surfaceOf v))) ∧
    (xytoview env s s.cursor_x s.cursor_y = none →
      focus (s.emit (Effect.pointer_notify_button time button PressState.pressed))
          ((xytoview env s s.cursor_x s.cursor_y).map fun r => r.1)
          ((xytoview env s s.cursor_x s.cursor_y).map fun r => r.2.1) =
        s.emit (Effect.pointer_notify_button time button PressState.pressed)) ∧
    (buttonpress env buttons time button PressState.released mods s).kbd_focus
      = s.kbd_focus ∧
    (buttonpress env buttons time button PressState.released mods s).views = s.views := by
  refine ⟨buttonpress_pressed_eq env buttons time button mods s, ?_, ?_, ?_, ?_⟩
  · intro v sf sx sy hhit hk
    have hk2 : (s.emit (Effect.pointer_notify_button time button PressState.pressed)).kbd_focus
        ≠ some sf := hk
    have hfe := focus_eq (s.emit (Effect.pointer_notify_button time button PressState.pressed))
      v (some sf) hk2
    refine ⟨by rw [hfe]; rfl, by rw [hfe]; rfl, by rw [hfe], by rw [hfe]; simp, ?_⟩
    intro hno
    have hcore := button_invoke_loop_sameCore env (buttons.filter (Button.fires mods button))
      (fun b hb => hno b (List.mem_filter.mp hb).1 (List.mem_filter.mp hb).2)
      (focus (s.emit (Effect.pointer_notify_button time button PressState.pressed))
        (some v) (some sf))
    rw [buttonpress_pressed_eq, hhit]
    refine ⟨hcore.1.trans ?_, hcore.2.2.1.trans ?_⟩
    · rw [hfe]
      rfl
    · rw [hfe]
  · intro hnone
    rw [hnone]
    rfl
  · unfold buttonpress
    simp [State.emit]
  · unfold buttonpress
    simp [State.emit]

/-- C23 on the registry `[1, 2, 3]` with view 1 focused and the pointer over
view 3: a press makes the registry `[3, 1, 2]` with view 3 focused, and a
release changes neither. -/
theorem click_to_focus_witness :
    xytoview hitThree sampleABC sampleABC.cursor_x sampleABC.cursor_y
      = some (3, surfaceOf 3, 0, 0) ∧
    sampleABC.kbd_focus ≠ some (surfaceOf 3) ∧
    (∀ b ∈ quitButton, b.fires 8 272 = true → b.func ≠ some Func.focusnext) ∧
    (buttonpress hitThree quitButton 1 272 PressState.pressed 8 sampleABC).views
      = [3, 1, 2] ∧
    (buttonpress hitThree quitButton 1 272 PressState.pressed 8 sampleABC).kbd_focus
      = some (surfaceOf 3) ∧
    (buttonpress hitThree quitButton 2 272 PressState.released 8 sampleABC).views
      = [1, 2, 3] :=
  have hhit : xytoview hitThree sampleABC sampleABC.cursor_x sampleABC.cursor_y
      = some (3, surfaceOf 3, 0, 0) := by decide
  have hk : sampleABC.kbd_focus ≠ some (surfaceOf 3) := by decide
  have hno : ∀ b ∈ quitButton, b.fires 8 272 = true → b.func ≠ some Func.focusnext := by
    decide
  have h := click_to_focus hitThree quitButton 1 272 8 sampleABC
  have h2 := (h.2.1 3 (surfaceOf 3) 0 0 hhit hk).2.2.2.2 hno
  ⟨hhit, hk, hno, h2.1.trans (by decide), h2.2,
   (click_to_focus hitThree quitButton 2 272 8 sampleABC).2.2.2.2⟩

/-! ## Cycling through the views -/

/-- The action `focusnext` on a duplicate-free registry of at least two views:
the second view takes the front and keyboard focus, the first goes to the
back. -/
theorem focusnext_two (s : State) (hnd : s.views.Nodup) (a b : View) (r : List View)
    (hv : s.views = a :: b :: r) :
    (focusnext s).views = b :: (r ++ [a]) ∧
    (focusnext s).kbd_focus = some (surfaceOf b) := by
  have hnd2 : (a :: b :: r).Nodup := by rw [← hv]; exact hnd
  have hab : a ≠ b := by
    intro e
    subst e
    simp at hnd2
  have hbr : b ∉ r := (List.nodup_cons.mp (List.nodup_cons.mp hnd2).2).1
  have har : a ∉ r := fun h => (List.nodup_cons.mp hnd2).1 (List.mem_cons_of_mem _ h)
  have hlen : ¬ s.views.length < 2 := by
    rw [hv]
    simp
  unfold focusnext
  rw [if_neg hlen]
  split
  · rename_i c n rest heq
    have hc : c = a ∧ n = b ∧ rest = r := by
      rw [hv] at heq
      have h1 := List.cons.inj heq
      have h2 := List.cons.inj h1.2
      exact ⟨h1.1.symm, h2.1.symm, h2.2.symm⟩
    obtain ⟨h1, h2, h3⟩ := hc
    subst h1 h2 h3
    dsimp only
    by_cases hk : s.kbd_focus = some (surfaceOf n)
    · have hf : focus s (some n) (some (surfaceOf n)) = s := by simp [focus, hk]
      rw [hf]
      refine ⟨?_, hk⟩
      rw [hv]
      simp [wl_list_insert_last, wl_list_remove]
    · rw [focus_eq s n _ hk]
      refine ⟨?_, rfl⟩
      dsimp only
      rw [hv]
      have e1 : (c :: n :: rest).erase n = c :: rest := by
        rw [List.erase_cons_tail (by simpa using hab)]
        simp
      rw [e1]
      simp [wl_list_insert_last, wl_list_remove, List.erase_cons_tail, hab.symm]
  · rename_i hno
    exact absurd hv (hno a b r)

/-- The action `focusnext` rotates a duplicate-free registry by one place. -/
theorem focusnext_views_rotate (s : State) (hnd : s.views.Nodup) :
    (focusnext s).views = s.views.rotate 1 := by
  cases hv : s.views with
  | nil =>
    have : focusnext s = s := by
      unfold focusnext
      simp [hv]
    rw [this, hv]
    rfl
  | cons a t =>
    cases t with
    | nil =>
      have : focusnext s = s := by
        unfold focusnext
        simp [hv]
      rw [this, hv, List.rotate_singleton]
    | cons b r =>
      rw [(focusnext_two s hnd a b r hv).1]
      simp [List.rotate_cons_succ]

/-- Repeating `focusnext` rotates a duplicate-free registry by as many places. -/
theorem focusnext_iterate_views (k : Nat) (s : State) (hnd : s.views.Nodup) :
    (Nat.iterate focusnext k s).views = s.views.rotate k := by
  induction k generalizing s with
  | zero => simp
  | succ k ih =>
    rw [Function.iterate_succ_apply]
    have h1 := focusnext_views_rotate s hnd
    have hnd2 : (focusnext s).views.Nodup := by
      rw [h1]
      exact List.nodup_rotate.mpr hnd
    rw [ih (focusnext s) hnd2, h1, List.rotate_rotate, Nat.add_comm]

/-- C24: on a duplicate-free registry `a, b, r...` of at least two views,
`focusnext` leaves the registry `b, r..., a` with the surface of `b` holding
keyboard focus, whether or not it held it before; on a registry of fewer than
two views it changes nothing; `k` calls rotate the registry by `k` places, so as
many calls as there are views restore the original order. -/
theorem focusnext_rotates (s : State) (hnd : s.views.Nodup) :
    (∀ (a b : View) (r : List View), s.views = a :: b :: r →
      (focusnext s).views = b :: (r ++ [a]) ∧
      (focusnext s).kbd_focus = some (surfaceOf b)) ∧
    (s.views.length < 2 → focusnext s = s) ∧
    (∀ k : Nat, (Nat.iterate focusnext k s).views = s.views.rotate k) ∧
    (Nat.iterate focusnext s.views.length s).views = s.views := by
  refine ⟨fun a b r hv => focusnext_two s hnd a b r hv, ?_,
    fun k => focusnext_iterate_views k s hnd, ?_⟩
  · intro hlen
    unfold focusnext
    rw [if_pos hlen]
  · rw [focusnext_iterate_views _ s hnd, List.rotate_length]

/-- C24 on the registry `[1, 2, 3]` with view 1 focused: one call gives
`[2, 3, 1]` with view 2 focused, a second call on a state where the next view
is focused already rotates all the same, and three calls restore `[1, 2, 3]`. -/
theorem focusnext_rotates_witness :
    sampleABC.views.Nodup ∧
    (focusnext sampleABC).views = [2, 3, 1] ∧
    (focusnext sampleABC).kbd_focus = some (surfaceOf 2) ∧
    (focusnext { sampleABC with kbd_focus := some (surfaceOf 2) }).views = [2, 3, 1] ∧
    (Nat.iterate focusnext 3 sampleABC).views = [1, 2, 3] :=
  have hnd : sampleABC.views.Nodup := by decide
  have h := focusnext_rotates sampleABC hnd
  have h2 := focusnext_rotates { sampleABC with kbd_focus := some (surfaceOf 2) } hnd
  ⟨hnd, (h.1 1 2 [3] rfl).1, (h.1 1 2 [3] rfl).2, (h2.1 1 2 [3] rfl).1, h.2.2.2⟩

/-! ## Resize grabs on the top and left edges -/

end Dwl
